import Mathlib

/-!
# docker-101 (Go): port resolution, routing and shutdown sequencing of `main`

The repository is a single file, `go/main.go`, whose `main` function

* resolves the listening port from the `PORT` environment variable
  (`os.LookupEnv` followed by `strconv.Atoi`, default `3000`),
* registers two handlers on the default mux (`/health` and `/`),
* starts `ListenAndServe` on a goroutine, and
* waits for one of three signals and then calls `server.Shutdown` with a
  one second deadline.

The development below embeds `main` statement by statement.  The standard
library functions it calls are embedded from their Go definitions
(`strconv.Atoi`, `strconv.ParseInt`, `strconv.ParseUint`, `path.Clean`, the
dispatch of `net/http`) or from their documented contract
(`http.ResponseWriter`, `signal.Notify`).  Go strings are byte sequences, machine integers are
`Nat`/`Int` with explicit wrap-around.
-/

namespace Docker101

/-! ## Go strings and machine integers -/

/-- A Go `byte`. -/
abbrev Byte := Fin 256

/-- A Go `string`: an immutable sequence of bytes. -/
abbrev GoString := List Byte

/-- The bytes of an ASCII literal (every character of the literals used below
is below 128, where the UTF-8 encoding is the code point itself). -/
def ascii (s : String) : GoString :=
  s.toList.map (fun c => Fin.ofNat c.toNat)

/-- The two platforms Go distinguishes for the size of `int`. -/
inductive Platform
  | word32
  | word64
  deriving DecidableEq, Repr

/-- Go: `const intSize = 32 << (^uint(0) >> 63)`. -/
def intSize : Platform → Nat
  | .word32 => 32
  | .word64 => 64

/-- Two's complement wrap-around of a mathematical integer to a signed
`w`-bit machine integer. -/
def wrapInt (w : Nat) (x : Int) : Int :=
  (x + 2 ^ (w - 1)) % 2 ^ w - 2 ^ (w - 1)

/-- Go: `const maxUint64 = 1<<64 - 1`. -/
def maxUint64 : Nat := 2 ^ 64 - 1

/-! ## `strconv` -/

/-- The `Err` field of a `*strconv.NumError`: `ErrSyntax` or `ErrRange`. -/
inductive NumError
  | ErrSyntax
  | ErrRange
  | ErrBitSize
  deriving DecidableEq, Repr

/-- Go: `func lower(c byte) byte { return c | ('x' - 'X') }`. -/
def lower (c : Nat) : Nat := c ||| 32

/-- The digit loop of `strconv.ParseUint` for `base = 10` (so `base0` is
false and an underscore is not accepted).  `n` is the `uint64` accumulator. -/
def parseUintLoop (maxVal : Nat) : Nat → GoString → Nat × Option NumError
  | n, [] => (n, none)
  | n, c :: cs =>
    let d : Option Nat :=
      if 48 ≤ c.val ∧ c.val ≤ 57 then some (c.val - 48)
      else if 97 ≤ lower c.val ∧ lower c.val ≤ 122 then
        some ((lower c.val + 256 - 97 + 10) % 256)
      else none
    match d with
    | none => (0, some .ErrSyntax)
    | some d =>
      if d ≥ 10 then (0, some .ErrSyntax)
      -- cutoff = maxUint64/10 + 1: n*base overflows
      else if n ≥ maxUint64 / 10 + 1 then (maxVal, some .ErrRange)
      else
        let n10 := (n * 10) % 2 ^ 64
        let n1 := (n10 + d) % 2 ^ 64
        if n1 < n10 ∨ n1 > maxVal then (maxVal, some .ErrRange)
        else parseUintLoop maxVal n1 cs

/-- Go: `strconv.ParseUint(s, 10, bitSize)`, returning the pair `(uint64, error)`
with `none` for a nil error.  `isz` is `strconv.IntSize`. -/
def ParseUint (isz : Nat) (s : GoString) (bitSize : Nat) : Nat × Option NumError :=
  if s = [] then (0, some .ErrSyntax)
  else
    let bitSize := if bitSize = 0 then isz else bitSize
    if bitSize > 64 then (0, some .ErrBitSize)  -- bitSizeError: not reached from Atoi
    else
      -- maxVal := uint64(1)<<uint(bitSize) - 1, in uint64 arithmetic
      let maxVal := ((2 ^ bitSize) % 2 ^ 64 + 2 ^ 64 - 1) % 2 ^ 64
      parseUintLoop maxVal 0 s

/-- Go: `strconv.ParseInt(s, 10, bitSize)`, returning the pair `(int64, error)`. -/
def ParseInt (isz : Nat) (s : GoString) (bitSize : Nat) : Int × Option NumError :=
  match s with
  | [] => (0, some .ErrSyntax)
  | c0 :: rest =>
    -- pick off leading sign
    let neg := decide (c0.val = 45)
    let body := if c0.val = 43 then rest else if c0.val = 45 then rest else s
    let r := ParseUint isz body bitSize
    let un := r.1
    -- err != nil && err.(*NumError).Err != ErrRange
    if r.2 ≠ none ∧ r.2 ≠ some .ErrRange then (0, r.2)
    else
      let bitSize := if bitSize = 0 then isz else bitSize
      let cutoff : Nat := 2 ^ (bitSize - 1)
      if !neg ∧ un ≥ cutoff then (wrapInt 64 ((cutoff : Int) - 1), some .ErrRange)
      else if neg ∧ un > cutoff then (wrapInt 64 (-(cutoff : Int)), some .ErrRange)
      else
        let n := wrapInt 64 (un : Int)
        (if neg then wrapInt 64 (-n) else n, none)

/-- The digit loop of the fast path of `strconv.Atoi`; `none` is the
`syntaxError` return.  `n` is an `int` of `w` bits. -/
def atoiFastLoop (w : Nat) : Int → GoString → Option Int
  | n, [] => some n
  | n, c :: cs =>
    let ch := (c.val + 256 - 48) % 256      -- ch -= '0'
    if ch > 9 then none
    else atoiFastLoop w (wrapInt w (n * 10 + (ch : Int))) cs

/-- Go: `strconv.Atoi(s)`, returning the pair `(int, error)`. -/
def Atoi (p : Platform) (s : GoString) : Int × Option NumError :=
  let sLen := s.length
  if (intSize p = 32 ∧ (0 < sLen ∧ sLen < 10)) ∨
     (intSize p = 64 ∧ (0 < sLen ∧ sLen < 19)) then
    -- fast path for small integers that fit int type
    match s with
    | [] => (0, some .ErrSyntax)            -- not reached: 0 < sLen
    | c0 :: rest =>
      let signed := decide (c0.val = 45 ∨ c0.val = 43)
      let body := if signed then rest else s
      if signed ∧ body.length < 1 then (0, some .ErrSyntax)
      else
        match atoiFastLoop (intSize p) 0 body with
        | none => (0, some .ErrSyntax)
        | some n => (if c0.val = 45 then wrapInt (intSize p) (-n) else n, none)
  else
    -- slow path for invalid, big, or underscored integers
    let r := ParseInt (intSize p) s 0
    (wrapInt (intSize p) r.1, r.2)           -- return int(i64), err


/-! ## Decimal integers, read positionally

The reference reading of a decimal numeral, independent of the accumulator
loops of `strconv`. -/

/-- An ASCII decimal digit. -/
def isDigit (c : Byte) : Bool := decide (48 ≤ c.val ∧ c.val ≤ 57)

/-- The number denoted by a digit string, most significant digit first. -/
def digitsValue : GoString → Nat
  | [] => 0
  | c :: cs => (c.val - 48) * 10 ^ cs.length + digitsValue cs

/-- A decimal integer numeral: an optional sign `+` or `-` followed by one or
more decimal digits, and nothing else. -/
def isDecimalInteger : GoString → Bool
  | [] => false
  | c :: rest =>
    if c.val = 43 ∨ c.val = 45 then !rest.isEmpty && rest.all isDigit
    else (c :: rest).all isDigit

/-- The integer denoted by a decimal integer numeral. -/
def decimalValue : GoString → Int
  | [] => 0
  | c :: rest =>
    if c.val = 45 then -(digitsValue rest : Int)
    else if c.val = 43 then (digitsValue rest : Int)
    else (digitsValue (c :: rest) : Int)

/-- The values of the platform `int`: `-2^(w-1) ≤ v < 2^(w-1)`. -/
def fitsInt (p : Platform) (v : Int) : Prop :=
  -(2 : Int) ^ (intSize p - 1) ≤ v ∧ v < (2 : Int) ^ (intSize p - 1)

instance (p : Platform) (v : Int) : Decidable (fitsInt p v) := by
  unfold fitsInt; infer_instance


/-! ## `path` and `net/http`

What a handler can do to its `ResponseWriter`, how the server and the mux pick
a handler for a request, and how the path of a request is brought to canonical
form first.  `Request.path` is `r.URL.Path`, the decoded path of the request
target. -/

/-- Go `path.lazybuf`: the bytes written so far are `data[0..w)`. -/
structure lazybuf where
  data : List Byte
  w : Nat
  deriving DecidableEq, Repr

/-- Method `index(i)` of `lazybuf`. -/
def lazybuf.index (b : lazybuf) (i : Nat) : Byte := b.data.getD i 0

/-- Method `append(c)` of `lazybuf`: writes `c` at index `w`. -/
def lazybuf.append (b : lazybuf) (c : Byte) : lazybuf :=
  ⟨b.data.take b.w ++ [c], b.w + 1⟩

/-- Method `string()` of `lazybuf`. -/
def lazybuf.string (b : lazybuf) : GoString := b.data.take b.w

/-- The inner loop of the `..` case of `path.Clean`:
`for out.w > dotdot && out.index(out.w) != '/' { out.w-- }`, as a function of
`out.w`. -/
def backtrackTo (data : List Byte) (dotdot : Nat) : Nat → Nat
  | 0 => 0
  | w + 1 =>
    if w + 1 > dotdot ∧ data.getD (w + 1) 0 ≠ 47 then backtrackTo data dotdot w else w + 1

/-- The main loop of `path.Clean`.  `rest` is `path[r:]`; every iteration
consumes at least one byte of it, so `fuel = len(path)` iterations suffice. -/
def cleanLoop (rooted : Bool) : Nat → lazybuf → Nat → GoString → lazybuf
  | 0, out, _, _ => out
  | _, out, _, [] => out
  | fuel + 1, out, dotdot, c :: t =>
    if c.val = 47 then
      -- empty path element
      cleanLoop rooted fuel out dotdot t
    else if c.val = 46 ∧ (t = [] ∨ t.head? = some 47) then
      -- . element
      cleanLoop rooted fuel out dotdot t
    else if c.val = 46 ∧ t.head? = some 46 ∧ (t.tail = [] ∨ t.tail.head? = some 47) then
      -- .. element: remove to last /
      if out.w > dotdot then
        -- can backtrack
        cleanLoop rooted fuel ⟨out.data, backtrackTo out.data dotdot (out.w - 1)⟩ dotdot t.tail
      else if !rooted then
        -- cannot backtrack, but not rooted, so append .. element
        let out1 := if out.w > 0 then out.append 47 else out
        let out2 := (out1.append 46).append 46
        cleanLoop rooted fuel out2 out2.w t.tail
      else cleanLoop rooted fuel out dotdot t.tail
    else
      -- real path element: add slash if needed, copy element
      let out1 :=
        if (rooted ∧ out.w ≠ 1) ∨ (!rooted ∧ out.w ≠ 0) then out.append 47 else out
      let out2 := ((c :: t).takeWhile (fun b => b.val ≠ 47)).foldl lazybuf.append out1
      cleanLoop rooted fuel out2 dotdot ((c :: t).dropWhile (fun b => b.val ≠ 47))

/-- Go: `path.Clean(path)`. -/
def Clean (path : GoString) : GoString :=
  if path = [] then ascii "."
  else
    let rooted := decide (path.head? = some 47)
    let out0 : lazybuf := ⟨path, 0⟩
    let out :=
      if rooted then cleanLoop rooted path.length (out0.append 47) 1 path.tail
      else cleanLoop rooted path.length out0 0 path
    -- turn empty string into "."
    if out.w = 0 then ascii "." else out.string

/-- Go: `cleanPath(p)` of `net/http`: the canonical path for `p`, eliminating
`.` and `..` elements and repeated slashes, keeping a trailing slash. -/
def cleanPath (p : GoString) : GoString :=
  if p = [] then ascii "/"
  else
    let p1 := if p.head? ≠ some 47 then (47 : Byte) :: p else p
    let np := Clean p1
    -- path.Clean removes trailing slash except for root; put it back if necessary
    if p1.getLast? = some 47 ∧ np ≠ ascii "/" then
      if p1.length = np.length + 1 ∧ np.isPrefixOf p1 then p1 else np ++ [47]
    else np

/-- The scan behind `isCanonicalPath`: `cur` is the path element read so far,
the second argument the bytes still to read. -/
def canonScan : GoString → GoString → Bool
  | cur, [] => decide (cur ≠ [46] ∧ cur ≠ [46, 46])
  | cur, c :: t =>
    if c.val = 47 then decide (cur ≠ [] ∧ cur ≠ [46] ∧ cur ≠ [46, 46]) && canonScan [] t
    else canonScan (cur ++ [c]) t

/-- A path in canonical form, read off its text: it begins with a slash, its
elements (the runs between slashes) are neither empty nor `.` nor `..`, and it
may end in one slash. -/
def isCanonicalPath : GoString → Bool
  | [] => false
  | c :: t => decide (c.val = 47) && canonScan [] t

/-- A path without its trailing slash, if it has one. -/
def trimSlash (p : GoString) : GoString :=
  if p.getLast? = some 47 then p.dropLast else p

/-- The request target of the request line: the asterisk form `*`
(`r.RequestURI == "*"`), or any other target, with its parsed path
`r.URL.Path` (empty for the authority form of `CONNECT`). -/
inductive Target
  | asterisk
  | parsed (path : GoString)
  deriving DecidableEq, Repr

/-- The part of an `*http.Request` the server, the mux and the handlers look at. -/
structure Request where
  method : String
  target : Target
  deriving DecidableEq, Repr

/-- Field `r.URL.Path`. -/
def Request.path (r : Request) : GoString :=
  match r.target with
  | .asterisk => ascii "*"
  | .parsed p => p

/-- The state behind an `http.ResponseWriter`: the method of the request it
answers, the status once the header has been written, and the body bytes sent
so far. -/
structure ResponseWriter where
  reqMethod : String
  status : Option Nat
  body : GoString
  deriving DecidableEq, Repr

/-- The writer handed to a handler for a new request. -/
def ResponseWriter.fresh (r : Request) : ResponseWriter := ⟨r.method, none, []⟩

/-- Method `WriteHeader(code)`: sends the status line; a second call is ignored. -/
def ResponseWriter.WriteHeader (w : ResponseWriter) (code : Nat) : ResponseWriter :=
  match w.status with
  | some _ => w
  | none => { w with status := some code }

/-- Go: `bodyAllowedForStatus`: no body with 1xx, 204 and 304. -/
def bodyAllowedForStatus (status : Nat) : Bool :=
  if 100 ≤ status ∧ status ≤ 199 then false
  else if status = 204 then false
  else if status = 304 then false
  else true

/-- Method `Write(data)`: "If WriteHeader has not yet been called, Write calls
WriteHeader(http.StatusOK) before writing the data."  The data is dropped when
the status allows no body, and the server sends no body in reply to a `HEAD`
request (`chunkWriter.Write` eats the writes). -/
def ResponseWriter.Write (w : ResponseWriter) (data : GoString) : ResponseWriter :=
  let w1 := w.WriteHeader 200
  if !bodyAllowedForStatus (w1.status.getD 200) then w1
  else if w1.reqMethod = "HEAD" then w1
  else { w1 with body := w1.body ++ data }

/-- The end of a request, `finishRequest`: a handler that never wrote the
header gets status 200. -/
def ResponseWriter.finishRequest (w : ResponseWriter) : ResponseWriter :=
  w.WriteHeader 200

abbrev Handler := ResponseWriter → Request → ResponseWriter

/-- What the client is sent: the status and body a handler wrote, or the reply
of `http.Redirect` to a path (status `code` and a `Location` header for that
path; the short HTML note it adds for `GET` is not represented). -/
inductive Reply
  | written (status : Nat) (body : GoString)
  | redirect (code : Nat) (path : GoString)
  deriving DecidableEq, Repr

/-- The reply after handler `h` has served request `r`. -/
def Handler.reply (h : Handler) (r : Request) : Reply :=
  let w := (h (ResponseWriter.fresh r) r).finishRequest
  .written (w.status.getD 200) w.body

/-- One registration of `http.HandleFunc`. -/
structure MuxEntry where
  pattern : GoString
  handler : Handler

/-- The registrations of an `http.ServeMux`, in registration order. -/
abbrev ServeMux := List MuxEntry

/-- The call `http.HandleFunc(pattern, handler)` on a mux. -/
def HandleFunc (mux : ServeMux) (pattern : GoString) (h : Handler) : ServeMux :=
  mux ++ [⟨pattern, h⟩]

/-- A pattern that ends in a slash names a rooted subtree and matches every
path it is a leading part of; any other pattern names a fixed path and matches
that path only. -/
def patternMatches (pattern path : GoString) : Bool :=
  if pattern.getLast? = some 47 then pattern.isPrefixOf path else decide (pattern = path)

/-- Lookup, `mux.match(path)`: an exact match first, then "longer patterns take
precedence over shorter ones": the longest matching registration, if any. -/
def ServeMux.lookup (mux : ServeMux) (path : GoString) : Option MuxEntry :=
  (mux.filter (fun e => patternMatches e.pattern path)).foldl
    (fun best e =>
      match best with
      | none => some e
      | some b => if b.pattern.length < e.pattern.length then some e else some b)
    none

/-- The handler `http.NotFound`: status 404 and the fixed text. -/
def NotFound : Handler := fun w _ =>
  (w.WriteHeader 404).Write (ascii "404 page not found\n")

/-- Go: `mux.shouldRedirectRLocked(host, path)`, for a mux without
host-specific patterns: `path` is not registered but `path + "/"` is. -/
def ServeMux.shouldRedirect (mux : ServeMux) (path : GoString) : Bool :=
  if mux.any (fun e => decide (e.pattern = path)) then false
  else if path.length = 0 then false
  else if mux.any (fun e => decide (e.pattern = path ++ [47])) then
    decide (path.getLast? ≠ some 47)
  else false

/-- What `mux.Handler(r)` returns: a handler (a registered one or `NotFound`),
or `RedirectHandler(u.String(), code)` for a path `u.Path`. -/
inductive Selected
  | handler (h : Handler)
  | redirect (path : GoString) (code : Nat)

/-- Go: `mux.handler(host, path)`, for a mux without host-specific patterns. -/
def ServeMux.handler (mux : ServeMux) (path : GoString) : Handler :=
  match mux.lookup path with
  | some e => e.handler
  | none => NotFound

/-- Go: `mux.Handler(r)`.  `CONNECT` requests are not canonicalized; all other
requests have their path cleaned, and are redirected when that changes it. -/
def ServeMux.Handler (mux : ServeMux) (r : Request) : Selected :=
  if r.method = "CONNECT" then
    if mux.shouldRedirect r.path then .redirect (r.path ++ [47]) 301
    else .handler (mux.handler r.path)
  else
    let path := cleanPath r.path
    if mux.shouldRedirect path then .redirect (path ++ [47]) 301
    else if path ≠ r.path then .redirect path 301
    else .handler (mux.handler r.path)

/-- Go: `mux.ServeHTTP(w, r)`: status 400 for the target `*`, otherwise the
handler that `mux.Handler(r)` selects serves the request. -/
def ServeMux.ServeHTTP (mux : ServeMux) (r : Request) : Reply :=
  if r.target = .asterisk then
    Handler.reply (fun w _ => w.WriteHeader 400) r
  else
    match mux.Handler r with
    | .handler h => Handler.reply h r
    | .redirect path code => .redirect code path

/-- Go: `globalOptionsHandler`, the reply to `OPTIONS *`: an empty body. -/
def globalOptionsHandler : Handler := fun w _ => w

/-! ## `os/signal`, `context`, `time` -/

/-- The signals of `syscall` that matter here, and some that do not. -/
inductive Signal
  | SIGHUP
  | SIGINT
  | SIGQUIT
  | SIGKILL
  | SIGUSR1
  | SIGPIPE
  | SIGTERM
  deriving DecidableEq, Repr

/-- Method `Signal.String()`: the entries of the `syscall` signal table on Linux. -/
def Signal.String : Signal → String
  | .SIGHUP => "hangup"
  | .SIGINT => "interrupt"
  | .SIGQUIT => "quit"
  | .SIGKILL => "killed"
  | .SIGUSR1 => "user defined signal 1"
  | .SIGPIPE => "broken pipe"
  | .SIGTERM => "terminated"

/-- The call `signal.Notify(c, sigs...)` relays an incoming signal to the channel only
if it is one of `sigs`. -/
def relay (sigs : List Signal) (incoming : Signal) : Option Signal :=
  if incoming ∈ sigs then some incoming else none

/-- A `time.Duration` is a count of nanoseconds; `time.Second`. -/
def Second : Nat := 1000000000

/-- A `context.Context`, as far as its deadline goes: `timeout` is the duration
given to `WithTimeout`, `none` for `context.Background()`. -/
structure Context where
  timeout : Option Nat
  deriving DecidableEq, Repr

def Background : Context := ⟨none⟩

/-- The call `context.WithTimeout(parent, d)`: the earlier of the parent deadline and `d`
from now. -/
def WithTimeout (parent : Context) (d : Nat) : Context :=
  match parent.timeout with
  | none => ⟨some d⟩
  | some t => ⟨some (min t d)⟩

/-! ## `main` -/

/-- The process environment as `os.LookupEnv` sees it: `none` for a variable
that is not set. -/
abbrev Environ := String → Option GoString

/-- Lines 15-20 of `main.go`: the port, `3000` unless `PORT` is set and
`strconv.Atoi` accepts it. -/
def resolvePort (p : Platform) (env : Environ) : Int :=
  let port : Int := 3000
  match env "PORT" with
  | some v =>
    let r := Atoi p v
    if r.2 = none then r.1 else port
  | none => port

/-- The verb `%d` of `fmt` on an `int`. -/
def formatInt (i : Int) : String :=
  if i < 0 then "-" ++ Nat.repr i.natAbs else Nat.repr i.natAbs

/-- Line 30: `fmt.Sprintf(":%d", port)`, the `Addr` of the server. -/
def serverAddr (port : Int) : String := ":" ++ formatInt port

/-- Lines 22-24: the handler registered for `/health`. -/
def healthHandler : Handler := fun w _ => w.Write (ascii "OK")

/-- Lines 26-28: the handler registered for `/`. -/
def rootHandler : Handler := fun w _ => w.Write (ascii "Hello from Golang!")

/-- The default mux after the two `http.HandleFunc` calls of `main`. -/
def registeredMux : ServeMux :=
  HandleFunc (HandleFunc [] (ascii "/health") healthHandler) (ascii "/") rootHandler

/-- Go: `serverHandler.ServeHTTP`, for the server of line 30: its `Handler` is
nil, so the default mux serves every request except `OPTIONS *`, which
`globalOptionsHandler` answers. -/
def serve (r : Request) : Reply :=
  if r.target = .asterisk ∧ r.method = "OPTIONS" then Handler.reply globalOptionsHandler r
  else registeredMux.ServeHTTP r

/-- The error value returned by `server.ListenAndServe`. -/
inductive ServeError
  | ErrServerClosed
  | other (msg : String)
  deriving DecidableEq, Repr

/-- What a path of execution does, in order. -/
inductive Event
  | HandleFunc (pattern : GoString)
  | Go
  | ListenAndServe (addr : String)
  | Notify (sigs : List Signal)
  | Recv (sig : Signal)
  | Print (text : String)
  | WithTimeout (d : Nat)
  | Shutdown (ctx : Context)
  | Cancel
  | Exit (code : Nat)
  | Return
  deriving DecidableEq, Repr

/-- Line 40: the signals `main` subscribes to. -/
def notified : List Signal := [.SIGINT, .SIGTERM, .SIGHUP]

/-- Lines 32-37: the goroutine.  `listenErr` is what `ListenAndServe` returns
(`none` for a nil error). -/
def serveGoroutine (port : Int) (listenErr : Option ServeError) : List Event :=
  [.Print ("Server running on http://localhost:" ++ formatInt port ++ "\n"),
   .ListenAndServe (serverAddr port)] ++
  (match listenErr with
   | some (.other msg) => [.Print ("Server error: " ++ msg ++ "\n")]
   | some .ErrServerClosed => []
   | none => []) ++
  [.Return]

/-- Lines 14-31 and 39-40: `main` up to the channel receive. -/
def mainStartup : List Event :=
  [.HandleFunc (ascii "/health"), .HandleFunc (ascii "/"), .Go, .Notify notified]

/-- Lines 42-52: `main` after the receive of `sig`.  `shutdownErr` is the text
of the error `server.Shutdown` returns (`none` for a nil error). -/
def mainShutdown (sig : Signal) (shutdownErr : Option String) : List Event :=
  let ctx := WithTimeout Background (1 * Second)
  [.Print ("\nReceived " ++ sig.String ++ ", shutting down gracefully...\n"),
   .WithTimeout (1 * Second),
   .Shutdown ctx] ++
  (match shutdownErr with
   | some err => [.Print ("Server shutdown error: " ++ err ++ "\n")]
   | none => [.Print "Server closed.\n"]) ++
  [.Cancel, .Return]

/-- The main path of `main`.  `incoming` is the signal delivered to the process
while `main` waits (`none` if none is); the receive of line 41 returns only
when `signal.Notify` has handed the channel a signal, so without one the path
does not get beyond `mainStartup`. -/
def mainPath (incoming : Option Signal) (shutdownErr : Option String) : List Event :=
  mainStartup ++
  (match incoming.bind (relay notified) with
   | some sig => .Recv sig :: mainShutdown sig shutdownErr
   | none => [])

/-- One run of the program: the events of the main path and of the goroutine. -/
structure Run where
  main : List Event
  background : List Event

/-- The run of `main` in a given world. -/
def run (p : Platform) (env : Environ) (listenErr : Option ServeError)
    (incoming : Option Signal) (shutdownErr : Option String) : Run :=
  { main := mainPath incoming shutdownErr
    background := serveGoroutine (resolvePort p env) listenErr }

/-- The calls of `server.Shutdown` among the events. -/
def isShutdown : Event → Bool
  | .Shutdown _ => true
  | _ => false

/-- The exit status of the process: the argument of an `os.Exit` if the main
path makes one, `0` when `main` returns, `none` while it has done neither. -/
def exitStatus : List Event → Option Nat
  | [] => none
  | .Exit code :: _ => some code
  | .Return :: _ => some 0
  | _ :: rest => exitStatus rest

/-! ## Lemmas on the digit loops -/

theorem one_le_ten_pow (k : Nat) : 1 ≤ 10 ^ k := Nat.one_le_pow _ _ (by decide)

theorem digitsValue_lt (cs : GoString) (h : cs.all isDigit = true) :
    digitsValue cs < 10 ^ cs.length := by
  induction cs with
  | nil => simp [digitsValue]
  | cons c cs ih =>
    simp only [List.all_cons, Bool.and_eq_true, isDigit, decide_eq_true_eq] at h
    have h1 := ih h.2
    have hd : c.val - 48 ≤ 9 := by omega
    have h2 : (c.val - 48) * 10 ^ cs.length ≤ 9 * 10 ^ cs.length :=
      Nat.mul_le_mul_right _ hd
    simp only [digitsValue, List.length_cons, Nat.pow_succ]
    omega

theorem parseUint_cutoff : maxUint64 / 10 + 1 = 1844674407370955162 := by decide

/-- One iteration of the `ParseUint` loop on a decimal digit. -/
theorem parseUintLoop_cons_digit (maxVal n : Nat) (c : Byte) (cs : GoString)
    (hc : 48 ≤ c.val ∧ c.val ≤ 57) :
    parseUintLoop maxVal n (c :: cs) =
      if n ≥ 1844674407370955162 then (maxVal, some .ErrRange)
      else if (n * 10 % 2 ^ 64 + (c.val - 48)) % 2 ^ 64 < n * 10 % 2 ^ 64 ∨
          (n * 10 % 2 ^ 64 + (c.val - 48)) % 2 ^ 64 > maxVal then (maxVal, some .ErrRange)
      else parseUintLoop maxVal ((n * 10 % 2 ^ 64 + (c.val - 48)) % 2 ^ 64) cs := by
  have hd : ¬ (c.val - 48 ≥ 10) := by omega
  rw [parseUintLoop]
  simp only [hc, and_self, if_true]
  rw [if_neg hd, parseUint_cutoff]

/-- On a digit string the `ParseUint` loop computes the positional value, or
reports `ErrRange` as soon as that value exceeds `maxVal`. -/
theorem parseUintLoop_digits (maxVal : Nat) (hmax : maxVal < 2 ^ 64) (cs : GoString)
    (h : cs.all isDigit = true) (n : Nat) (hn : n ≤ maxVal) :
    parseUintLoop maxVal n cs =
      if n * 10 ^ cs.length + digitsValue cs ≤ maxVal
      then (n * 10 ^ cs.length + digitsValue cs, none)
      else (maxVal, some .ErrRange) := by
  induction cs generalizing n with
  | nil => simp [parseUintLoop, digitsValue, hn]
  | cons c cs ih =>
    simp only [List.all_cons, Bool.and_eq_true, isDigit, decide_eq_true_eq] at h
    obtain ⟨hc, hcs⟩ := h
    have hk := one_le_ten_pow cs.length
    have hval : n * 10 ^ (c :: cs).length + digitsValue (c :: cs)
        = (n * 10 + (c.val - 48)) * 10 ^ cs.length + digitsValue cs := by
      simp only [digitsValue, List.length_cons, Nat.pow_succ]; ring
    have hge : n * 10 + (c.val - 48) ≤ (n * 10 + (c.val - 48)) * 10 ^ cs.length :=
      Nat.le_mul_of_pos_right _ hk
    rw [hval, parseUintLoop_cons_digit maxVal n c cs hc]
    generalize hx : (n * 10 + (c.val - 48)) * 10 ^ cs.length = x at hge ⊢
    by_cases hcut : n ≥ 1844674407370955162
    · rw [if_pos hcut, if_neg (by omega)]
    · rw [if_neg hcut]
      by_cases hov : n * 10 + (c.val - 48) > maxVal
      · rw [if_pos (by omega), if_neg (by omega)]
      · have hn1 : (n * 10 % 2 ^ 64 + (c.val - 48)) % 2 ^ 64 = n * 10 + (c.val - 48) := by
          omega
        rw [if_neg (by omega), hn1, ih hcs _ (by omega), hx]

/-- On a string with a byte that is not a decimal digit the `ParseUint` loop
reports an error. -/
theorem parseUintLoop_nondigits (maxVal : Nat) (cs : GoString)
    (h : cs.all isDigit = false) (n : Nat) :
    (parseUintLoop maxVal n cs).2 ≠ none := by
  induction cs generalizing n with
  | nil => simp at h
  | cons c cs ih =>
    by_cases hc : 48 ≤ c.val ∧ c.val ≤ 57
    · have hcs : cs.all isDigit = false := by
        simpa [List.all_cons, isDigit, hc] using h
      rw [parseUintLoop_cons_digit maxVal n c cs hc]
      split_ifs
      · simp
      · simp
      · exact ih hcs _
    · rw [parseUintLoop]
      simp only [hc, if_false]
      by_cases hl : 97 ≤ lower c.val ∧ lower c.val ≤ 122
      · have hd : (lower c.val + 256 - 97 + 10) % 256 ≥ 10 := by omega
        simp only [hl, and_self, if_true]
        rw [if_pos hd]
        simp
      · simp only [hl, if_false]
        simp


/-- Whenever the `ParseUint` loop reports `ErrRange`, the value is `maxVal`. -/
theorem parseUintLoop_range (maxVal : Nat) (cs : GoString) (n : Nat)
    (h : (parseUintLoop maxVal n cs).2 = some .ErrRange) :
    (parseUintLoop maxVal n cs).1 = maxVal := by
  induction cs generalizing n with
  | nil => simp [parseUintLoop] at h
  | cons c cs ih =>
    by_cases hc : 48 ≤ c.val ∧ c.val ≤ 57
    · rw [parseUintLoop_cons_digit maxVal n c cs hc] at h ⊢
      split_ifs at h ⊢
      · rfl
      · rfl
      · exact ih _ h
    · rw [parseUintLoop] at h
      simp only [hc, if_false] at h
      by_cases hl : 97 ≤ lower c.val ∧ lower c.val ≤ 122
      · have hd : (lower c.val + 256 - 97 + 10) % 256 ≥ 10 := by omega
        simp only [hl, and_self, if_true] at h
        rw [if_pos hd] at h
        simp at h
      · simp only [hl, if_false] at h
        simp at h

/-- The value of `maxVal` computed by `ParseUint` for `bitSize = 0`. -/
theorem parseUint_maxVal (p : Platform) :
    ((2 ^ intSize p) % 2 ^ 64 + 2 ^ 64 - 1) % 2 ^ 64 = 2 ^ intSize p - 1 := by
  cases p <;> decide

theorem intSize_le (p : Platform) : ¬ intSize p > 64 := by cases p <;> decide

/-- The function `ParseUint` with `bitSize = 0` on a non-empty string is its loop. -/
theorem ParseUint_eq_loop (p : Platform) (s : GoString) (hs : s ≠ []) :
    ParseUint (intSize p) s 0 = parseUintLoop (2 ^ intSize p - 1) 0 s := by
  unfold ParseUint
  rw [if_neg hs]
  simp only [if_true]
  rw [if_neg (intSize_le p), parseUint_maxVal]

theorem ParseUint_digits (p : Platform) (s : GoString) (hs : s ≠ [])
    (h : s.all isDigit = true) :
    ParseUint (intSize p) s 0 =
      if digitsValue s ≤ 2 ^ intSize p - 1 then (digitsValue s, none)
      else (2 ^ intSize p - 1, some .ErrRange) := by
  rw [ParseUint_eq_loop p s hs,
    parseUintLoop_digits _ (by cases p <;> decide) s h 0 (Nat.zero_le _)]
  simp


theorem wrapInt_id (w : Nat) (hw : 1 ≤ w) (x : Int)
    (h1 : -(2 : Int) ^ (w - 1) ≤ x) (h2 : x < (2 : Int) ^ (w - 1)) : wrapInt w x = x := by
  unfold wrapInt
  have hpow : (2 : Int) ^ w = 2 * 2 ^ (w - 1) := by
    obtain ⟨k, rfl⟩ : ∃ k, w = k + 1 := ⟨w - 1, by omega⟩
    simp [pow_succ]; ring
  rw [Int.emod_eq_of_lt (by omega) (by omega)]
  omega

theorem ParseInt_digits (p : Platform) (c0 : Byte) (rest body : GoString)
    (hb : body = if c0.val = 43 then rest else if c0.val = 45 then rest else c0 :: rest)
    (hne : body ≠ []) (hd : body.all isDigit = true) :
    ParseInt (intSize p) (c0 :: rest) 0 =
      if c0.val = 45 then
        if digitsValue body ≤ 2 ^ (intSize p - 1) then (-(digitsValue body : Int), none)
        else (-(2 : Int) ^ (intSize p - 1), some .ErrRange)
      else
        if digitsValue body < 2 ^ (intSize p - 1) then ((digitsValue body : Int), none)
        else ((2 : Int) ^ (intSize p - 1) - 1, some .ErrRange) := by
  unfold ParseInt
  simp only []
  rw [← hb, ParseUint_digits p body hne hd]
  generalize digitsValue body = v
  cases p
  · simp only [intSize]
    split_ifs <;> simp_all [wrapInt] <;> omega
  · simp only [intSize]
    split_ifs <;> simp_all [wrapInt] <;> omega


theorem ParseInt_nondigits (p : Platform) (c0 : Byte) (rest body : GoString)
    (hb : body = if c0.val = 43 then rest else if c0.val = 45 then rest else c0 :: rest)
    (hbad : body = [] ∨ body.all isDigit = false) :
    (ParseInt (intSize p) (c0 :: rest) 0).2 ≠ none := by
  unfold ParseInt
  simp only []
  rw [← hb]
  rcases hbad with hnil | hnd
  · subst hnil
    simp [ParseUint]
  · have hne : body ≠ [] := by
      intro h0; rw [h0] at hnd; simp at hnd
    rw [ParseUint_eq_loop p body hne]
    have herr := parseUintLoop_nondigits (2 ^ intSize p - 1) body hnd 0
    by_cases hr : (parseUintLoop (2 ^ intSize p - 1) 0 body).2 = some .ErrRange
    · have hv := parseUintLoop_range _ body 0 hr
      rw [hv]
      cases p <;> simp only [intSize] <;> split_ifs <;> simp_all
    · rw [if_pos ⟨herr, hr⟩]
      exact herr

/-- The fast-path loop of `Atoi` computes the positional value of a digit
string as long as that value fits the `int`. -/
theorem atoiFastLoop_digits (w : Nat) (hw : 1 ≤ w) (cs : GoString)
    (h : cs.all isDigit = true) (n : Nat)
    (hfit : ((n * 10 ^ cs.length + digitsValue cs : Nat) : Int) < 2 ^ (w - 1)) :
    atoiFastLoop w (n : Int) cs = some ((n * 10 ^ cs.length + digitsValue cs : Nat) : Int) := by
  induction cs generalizing n with
  | nil => simp [atoiFastLoop, digitsValue]
  | cons c cs ih =>
    simp only [List.all_cons, Bool.and_eq_true, isDigit, decide_eq_true_eq] at h
    obtain ⟨hc, hcs⟩ := h
    have hk := one_le_ten_pow cs.length
    have hval : n * 10 ^ (c :: cs).length + digitsValue (c :: cs)
        = (n * 10 + (c.val - 48)) * 10 ^ cs.length + digitsValue cs := by
      simp only [digitsValue, List.length_cons, Nat.pow_succ]; ring
    have hge : n * 10 + (c.val - 48) ≤ (n * 10 + (c.val - 48)) * 10 ^ cs.length :=
      Nat.le_mul_of_pos_right _ hk
    rw [hval] at hfit ⊢
    have hch : (c.val + 256 - 48) % 256 = c.val - 48 := by omega
    have hpos : (0 : Int) ≤ 2 ^ (w - 1) := by positivity
    rw [atoiFastLoop]
    simp only [hch]
    rw [if_neg (by omega)]
    have hw1 : wrapInt w ((n : Int) * 10 + ((c.val - 48 : Nat) : Int))
        = ((n * 10 + (c.val - 48) : Nat) : Int) := by
      rw [wrapInt_id w hw]
      · push_cast; ring
      · have : (0 : Int) ≤ (n : Int) * 10 + ((c.val - 48 : Nat) : Int) := by positivity
        omega
      · have h3 : ((n * 10 + (c.val - 48) : Nat) : Int)
            ≤ (((n * 10 + (c.val - 48)) * 10 ^ cs.length + digitsValue cs : Nat) : Int) := by
          exact_mod_cast Nat.le_trans hge (Nat.le_add_right _ _)
        push_cast at h3 hfit ⊢
        omega
    rw [hw1]
    exact ih hcs _ hfit

/-- The fast-path loop of `Atoi` rejects a string with a non-digit byte. -/
theorem atoiFastLoop_nondigits (w : Nat) (cs : GoString)
    (h : cs.all isDigit = false) (n : Int) : atoiFastLoop w n cs = none := by
  induction cs generalizing n with
  | nil => simp at h
  | cons c cs ih =>
    rw [atoiFastLoop]
    by_cases hc : 48 ≤ c.val ∧ c.val ≤ 57
    · have hcs : cs.all isDigit = false := by
        simpa [List.all_cons, isDigit, hc] using h
      have hch : (c.val + 256 - 48) % 256 = c.val - 48 := by omega
      simp only [hch]
      rw [if_neg (by omega)]
      exact ih hcs _
    · have hc256 := c.isLt
      rw [if_pos (by omega)]


/-- The fast path of `Atoi` is taken exactly for lengths `1..9` (32 bit) and
`1..18` (64 bit); every digit string of such a length fits the `int`. -/
theorem fast_fits (p : Platform) (body : GoString) (hd : body.all isDigit = true)
    (hlen : (intSize p = 32 ∧ body.length < 10) ∨ (intSize p = 64 ∧ body.length < 19)) :
    ((digitsValue body : Nat) : Int) < 2 ^ (intSize p - 1) := by
  have hlt := digitsValue_lt body hd
  rcases hlen with ⟨hp, hl⟩ | ⟨hp, hl⟩
  · have h9 : 10 ^ body.length ≤ 10 ^ 9 := Nat.pow_le_pow_right (by decide) (by omega)
    rw [hp]
    have : digitsValue body < 2 ^ (32 - 1) := by
      have : (10 : Nat) ^ 9 < 2 ^ (32 - 1) := by decide
      omega
    exact_mod_cast this
  · have h18 : 10 ^ body.length ≤ 10 ^ 18 := Nat.pow_le_pow_right (by decide) (by omega)
    rw [hp]
    have : digitsValue body < 2 ^ (64 - 1) := by
      have : (10 : Nat) ^ 18 < 2 ^ (64 - 1) := by decide
      omega
    exact_mod_cast this

/-- The slow path of `Atoi`. -/
theorem Atoi_slow (p : Platform) (s : GoString)
    (hslow : ¬ ((intSize p = 32 ∧ (0 < s.length ∧ s.length < 10)) ∨
      (intSize p = 64 ∧ (0 < s.length ∧ s.length < 19)))) :
    Atoi p s = (wrapInt (intSize p) (ParseInt (intSize p) s 0).1, (ParseInt (intSize p) s 0).2) := by
  unfold Atoi
  simp only []
  rw [if_neg hslow]

/-- The fast path of `Atoi`, in terms of the sign-stripped body. -/
theorem Atoi_fast (p : Platform) (c0 : Byte) (rest body : GoString)
    (hb : body = if c0.val = 43 then rest else if c0.val = 45 then rest else c0 :: rest)
    (hfast : (intSize p = 32 ∧ (0 < (c0 :: rest).length ∧ (c0 :: rest).length < 10)) ∨
      (intSize p = 64 ∧ (0 < (c0 :: rest).length ∧ (c0 :: rest).length < 19))) :
    Atoi p (c0 :: rest) =
      if (c0.val = 45 ∨ c0.val = 43) ∧ body.length < 1 then (0, some .ErrSyntax)
      else
        match atoiFastLoop (intSize p) 0 body with
        | none => (0, some .ErrSyntax)
        | some n => (if c0.val = 45 then wrapInt (intSize p) (-n) else n, none) := by
  have hb2 : (if decide (c0.val = 45 ∨ c0.val = 43) = true then rest else c0 :: rest) = body := by
    rw [hb]; by_cases h43 : c0.val = 43 <;> by_cases h45 : c0.val = 45 <;> simp [h43, h45]
  unfold Atoi
  simp only []
  rw [if_pos hfast, hb2]
  simp only [decide_eq_true_eq]

theorem body_length_le (c0 : Byte) (rest body : GoString)
    (hb : body = if c0.val = 43 then rest else if c0.val = 45 then rest else c0 :: rest) :
    body.length ≤ (c0 :: rest).length := by
  rw [hb]; split_ifs <;> simp

theorem Atoi_cons_nondigits (p : Platform) (c0 : Byte) (rest body : GoString)
    (hb : body = if c0.val = 43 then rest else if c0.val = 45 then rest else c0 :: rest)
    (hbad : body = [] ∨ body.all isDigit = false) :
    (Atoi p (c0 :: rest)).2 ≠ none := by
  by_cases hfast : (intSize p = 32 ∧ (0 < (c0 :: rest).length ∧ (c0 :: rest).length < 10)) ∨
      (intSize p = 64 ∧ (0 < (c0 :: rest).length ∧ (c0 :: rest).length < 19))
  · rw [Atoi_fast p c0 rest body hb hfast]
    rcases hbad with hnil | hnd
    · have hsigned : c0.val = 45 ∨ c0.val = 43 := by
        by_contra hns
        have h1 : ¬ c0.val = 43 := fun h => hns (Or.inr h)
        have h2 : ¬ c0.val = 45 := fun h => hns (Or.inl h)
        rw [if_neg h1, if_neg h2] at hb
        rw [hb] at hnil
        cases hnil
      rw [if_pos ⟨hsigned, by rw [hnil]; decide⟩]
      simp
    · rw [atoiFastLoop_nondigits _ body hnd]
      split_ifs <;> simp
  · rw [Atoi_slow p _ hfast]
    exact ParseInt_nondigits p c0 rest body hb hbad

theorem Atoi_cons_digits (p : Platform) (c0 : Byte) (rest body : GoString)
    (hb : body = if c0.val = 43 then rest else if c0.val = 45 then rest else c0 :: rest)
    (hne : body ≠ []) (hd : body.all isDigit = true) (v : Int)
    (hv : v = if c0.val = 45 then -(digitsValue body : Int) else (digitsValue body : Int)) :
    (fitsInt p v → Atoi p (c0 :: rest) = (v, none)) ∧
    (¬ fitsInt p v → (Atoi p (c0 :: rest)).2 = some .ErrRange) := by
  have hw : 1 ≤ intSize p := by cases p <;> decide
  by_cases hfast : (intSize p = 32 ∧ (0 < (c0 :: rest).length ∧ (c0 :: rest).length < 10)) ∨
      (intSize p = 64 ∧ (0 < (c0 :: rest).length ∧ (c0 :: rest).length < 19))
  · have hlen := body_length_le c0 rest body hb
    have hfit : ((digitsValue body : Nat) : Int) < 2 ^ (intSize p - 1) := by
      apply fast_fits p body hd
      rcases hfast with ⟨h1, _, h2⟩ | ⟨h1, _, h2⟩
      · exact Or.inl ⟨h1, by omega⟩
      · exact Or.inr ⟨h1, by omega⟩
    have hloop := atoiFastLoop_digits (intSize p) hw body hd 0 (by simpa using hfit)
    simp only [Nat.zero_mul, Nat.zero_add, Nat.cast_zero] at hloop
    have hlen1 : ¬ body.length < 1 := by
      cases body with
      | nil => exact absurd rfl hne
      | cons _ _ => simp
    have hval : Atoi p (c0 :: rest) = (v, none) := by
      rw [Atoi_fast p c0 rest body hb hfast, if_neg (fun h => hlen1 h.2), hloop]
      simp only []
      by_cases h45 : c0.val = 45
      · rw [if_pos h45] at hv ⊢
        rw [wrapInt_id _ hw _ (by omega) (by omega), hv]
      · rw [if_neg h45] at hv ⊢
        rw [hv]
    have hfits : fitsInt p v := by
      unfold fitsInt
      rw [hv]
      split_ifs <;> constructor <;> omega
    exact ⟨fun _ => hval, fun h => absurd hfits h⟩
  · rw [Atoi_slow p _ hfast, ParseInt_digits p c0 rest body hb hne hd]
    unfold fitsInt
    rw [hv]
    have hpos : (0 : Int) < 2 ^ (intSize p - 1) := by positivity
    have hcast : ((2 ^ (intSize p - 1) : Nat) : Int) = 2 ^ (intSize p - 1) := by push_cast; rfl
    by_cases h45 : c0.val = 45
    · simp only [h45, if_true]
      constructor
      · intro hf
        have h3 : digitsValue body ≤ 2 ^ (intSize p - 1) := by
          have := hf.1
          omega
        rw [if_pos h3, wrapInt_id _ hw _ hf.1 hf.2]
      · intro hf
        have h3 : ¬ digitsValue body ≤ 2 ^ (intSize p - 1) := by
          intro h
          apply hf
          constructor <;> omega
        rw [if_neg h3]
    · simp only [h45, if_false]
      constructor
      · intro hf
        have h3 : digitsValue body < 2 ^ (intSize p - 1) := by
          have := hf.2
          omega
        rw [if_pos h3, wrapInt_id _ hw _ hf.1 hf.2]
      · intro hf
        have h3 : ¬ digitsValue body < 2 ^ (intSize p - 1) := by
          intro h
          apply hf
          constructor <;> omega
        rw [if_neg h3]


/-! ## `strconv.Atoi` against the positional reading -/

theorem isDecimalInteger_cons (c0 : Byte) (rest body : GoString)
    (hb : body = if c0.val = 43 then rest else if c0.val = 45 then rest else c0 :: rest) :
    isDecimalInteger (c0 :: rest) = (!body.isEmpty && body.all isDigit) := by
  rw [hb, isDecimalInteger]
  by_cases h43 : c0.val = 43
  · simp [h43]
  · by_cases h45 : c0.val = 45
    · simp [h45]
    · simp [h43, h45]

theorem decimalValue_cons (c0 : Byte) (rest body : GoString)
    (hb : body = if c0.val = 43 then rest else if c0.val = 45 then rest else c0 :: rest) :
    decimalValue (c0 :: rest) =
      if c0.val = 45 then -(digitsValue body : Int) else (digitsValue body : Int) := by
  rw [hb, decimalValue]
  by_cases h45 : c0.val = 45
  · simp [h45]
  · by_cases h43 : c0.val = 43
    · simp [h43]
    · simp [h43, h45]

/-- The function `Atoi` reports an error on every string that is not a decimal
integer numeral. -/
theorem Atoi_error_of_not_integer (p : Platform) (s : GoString)
    (h : isDecimalInteger s = false) : (Atoi p s).2 ≠ none := by
  cases s with
  | nil =>
    rw [Atoi_slow p [] (by simp)]
    simp [ParseInt]
  | cons c0 rest =>
    have hi := isDecimalInteger_cons c0 rest _ rfl
    rw [h] at hi
    apply Atoi_cons_nondigits p c0 rest _ rfl
    generalize (if c0.val = 43 then rest else if c0.val = 45 then rest else c0 :: rest) = body at hi
    cases body with
    | nil => exact Or.inl rfl
    | cons b bs =>
      right
      simpa using hi.symm

/-- On a decimal integer numeral, `Atoi` returns the denoted integer without
error when it fits the `int`, and reports `ErrRange` when it does not. -/
theorem Atoi_of_integer (p : Platform) (s : GoString) (h : isDecimalInteger s = true) :
    (fitsInt p (decimalValue s) → Atoi p s = (decimalValue s, none)) ∧
    (¬ fitsInt p (decimalValue s) → (Atoi p s).2 = some .ErrRange) := by
  cases s with
  | nil => simp [isDecimalInteger] at h
  | cons c0 rest =>
    have hi := isDecimalInteger_cons c0 rest _ rfl
    rw [h] at hi
    have hv := decimalValue_cons c0 rest _ rfl
    generalize hb : (if c0.val = 43 then rest else if c0.val = 45 then rest else c0 :: rest)
      = body at hi hv
    have hne : body ≠ [] := by
      intro h0; rw [h0] at hi; simp at hi
    have hd : body.all isDigit = true := by
      cases body with
      | nil => exact absurd rfl hne
      | cons b bs => simpa using hi.symm
    exact Atoi_cons_digits p c0 rest body hb.symm hne hd _ hv

theorem resolvePort_absent (p : Platform) (env : Environ) (h : env "PORT" = none) :
    resolvePort p env = 3000 := by
  simp [resolvePort, h]

theorem resolvePort_present (p : Platform) (env : Environ) (v : GoString)
    (h : env "PORT" = some v) :
    resolvePort p env = if (Atoi p v).2 = none then (Atoi p v).1 else 3000 := by
  simp [resolvePort, h]

theorem resolvePort_not_integer (p : Platform) (env : Environ) (v : GoString)
    (h : env "PORT" = some v) (hv : isDecimalInteger v = false) :
    resolvePort p env = 3000 := by
  rw [resolvePort_present p env v h, if_neg (Atoi_error_of_not_integer p v hv)]

theorem resolvePort_fits (p : Platform) (env : Environ) (v : GoString)
    (h : env "PORT" = some v) (hv : isDecimalInteger v = true)
    (hfit : fitsInt p (decimalValue v)) :
    resolvePort p env = decimalValue v := by
  rw [resolvePort_present p env v h, (Atoi_of_integer p v hv).1 hfit]
  simp

theorem resolvePort_overflow (p : Platform) (env : Environ) (v : GoString)
    (h : env "PORT" = some v) (hv : isDecimalInteger v = true)
    (hfit : ¬ fitsInt p (decimalValue v)) :
    resolvePort p env = 3000 := by
  rw [resolvePort_present p env v h, (Atoi_of_integer p v hv).2 hfit]
  simp

/-! ## Port resolution -/

/-- C1: in every environment in which `PORT` is absent, and in every
environment in which `PORT` is present but its text is not a decimal integer
numeral, the port resolved by `main` is 3000 and the server address is
`":3000"`. -/
theorem port_default_absent_or_not_integer (p : Platform) (env : Environ)
    (h : env "PORT" = none ∨ ∃ v, env "PORT" = some v ∧ isDecimalInteger v = false) :
    resolvePort p env = 3000 ∧ serverAddr (resolvePort p env) = ":3000" := by
  have hp : resolvePort p env = 3000 := by
    rcases h with h | ⟨v, h, hv⟩
    · exact resolvePort_absent p env h
    · exact resolvePort_not_integer p env v h hv
  rw [hp]
  exact ⟨rfl, by decide⟩

/-- Witness for C1: `PORT` unset, and `PORT` set to `"abc"`, `""`, `"80 "` and
`"8080.0"`, on both platforms. -/
theorem port_default_absent_or_not_integer_witness :
    (resolvePort .word64 (fun _ => none) = 3000 ∧
      serverAddr (resolvePort .word64 (fun _ => none)) = ":3000") ∧
    (resolvePort .word64 (fun _ => some (ascii "abc")) = 3000 ∧
      serverAddr (resolvePort .word64 (fun _ => some (ascii "abc"))) = ":3000") ∧
    (resolvePort .word32 (fun _ => some (ascii "")) = 3000 ∧
      serverAddr (resolvePort .word32 (fun _ => some (ascii ""))) = ":3000") ∧
    (resolvePort .word64 (fun _ => some (ascii "80 ")) = 3000 ∧
      serverAddr (resolvePort .word64 (fun _ => some (ascii "80 "))) = ":3000") ∧
    (resolvePort .word32 (fun _ => some (ascii "8080.0")) = 3000 ∧
      serverAddr (resolvePort .word32 (fun _ => some (ascii "8080.0"))) = ":3000") :=
  ⟨port_default_absent_or_not_integer .word64 (fun _ => none) (Or.inl rfl),
   port_default_absent_or_not_integer .word64 (fun _ => some (ascii "abc"))
     (Or.inr ⟨ascii "abc", rfl, by decide⟩),
   port_default_absent_or_not_integer .word32 (fun _ => some (ascii ""))
     (Or.inr ⟨ascii "", rfl, by decide⟩),
   port_default_absent_or_not_integer .word64 (fun _ => some (ascii "80 "))
     (Or.inr ⟨ascii "80 ", rfl, by decide⟩),
   port_default_absent_or_not_integer .word32 (fun _ => some (ascii "8080.0"))
     (Or.inr ⟨ascii "8080.0", rfl, by decide⟩)⟩


/-- C2, as stated, fails: `"9223372036854775808"` is a valid integer string,
yet on a 64-bit platform the resolved port is 3000 and not that integer. -/
theorem port_passthrough_fails_beyond_int :
    isDecimalInteger (ascii "9223372036854775808") = true ∧
    decimalValue (ascii "9223372036854775808") = 9223372036854775808 ∧
    resolvePort .word64 (fun _ => some (ascii "9223372036854775808")) = 3000 ∧
    resolvePort .word64 (fun _ => some (ascii "9223372036854775808"))
      ≠ decimalValue (ascii "9223372036854775808") := by
  decide

/-- C2, amended: for every valid integer string assigned to `PORT` whose value
fits the platform `int`, the resolved port is exactly that integer and the
server address is `":"` followed by its decimal rendering; no check against
the range 0-65535 is made. -/
theorem port_passthrough_within_int (p : Platform) (env : Environ) (v : GoString)
    (h : env "PORT" = some v) (hv : isDecimalInteger v = true)
    (hfit : fitsInt p (decimalValue v)) :
    resolvePort p env = decimalValue v ∧
    serverAddr (resolvePort p env) = ":" ++ formatInt (decimalValue v) := by
  rw [resolvePort_fits p env v h hv hfit]
  exact ⟨rfl, rfl⟩

/-- Witness for C2 (amended): `PORT=70000`, outside 0-65535, is passed through. -/
theorem port_passthrough_within_int_witness :
    ¬ ((70000 : Int) ≤ 65535) ∧
    resolvePort .word64 (fun _ => some (ascii "70000")) = 70000 ∧
    serverAddr (resolvePort .word64 (fun _ => some (ascii "70000"))) = ":70000" :=
  ⟨by decide,
   port_passthrough_within_int .word64 (fun _ => some (ascii "70000")) (ascii "70000")
     rfl (by decide) (by decide)⟩

/-- C3, as stated, fails: `"0"` and `"-5"` are not positive integers, yet the
resolved port is 0 and -5, not the default 3000. -/
theorem port_zero_and_negative_replace_default :
    resolvePort .word64 (fun _ => some (ascii "0")) = 0 ∧
    resolvePort .word64 (fun _ => some (ascii "-5")) = -5 ∧
    resolvePort .word64 (fun _ => some (ascii "0")) ≠ 3000 ∧
    resolvePort .word64 (fun _ => some (ascii "-5")) ≠ 3000 := by
  decide

/-- C3, amended: for every `PORT` value that is present, the resolved port is
the denoted integer when the value is a decimal integer numeral that fits the
platform `int` (zero and negative integers included), and the fixed default
3000 otherwise. -/
theorem port_default_unless_int (p : Platform) (env : Environ) (v : GoString)
    (h : env "PORT" = some v) :
    resolvePort p env =
      if isDecimalInteger v = true ∧ fitsInt p (decimalValue v) then decimalValue v
      else 3000 := by
  by_cases hv : isDecimalInteger v = true
  · by_cases hfit : fitsInt p (decimalValue v)
    · rw [if_pos ⟨hv, hfit⟩]
      exact resolvePort_fits p env v h hv hfit
    · rw [if_neg (fun hh => hfit hh.2)]
      exact resolvePort_overflow p env v h hv hfit
  · rw [if_neg (fun hh => hv hh.1)]
    exact resolvePort_not_integer p env v h (by simpa using hv)

/-- Witness for C3 (amended): `PORT=-5` resolves to the branch of the numeral. -/
theorem port_default_unless_int_witness :
    resolvePort .word32 (fun _ => some (ascii "-5")) =
      if isDecimalInteger (ascii "-5") = true ∧ fitsInt .word32 (decimalValue (ascii "-5"))
      then decimalValue (ascii "-5") else 3000 :=
  port_default_unless_int .word32 (fun _ => some (ascii "-5")) (ascii "-5") rfl

/-- C10: for every `PORT` value that is a well-formed decimal integer, with an
optional leading sign: if its value does not fit the platform `int`,
`strconv.Atoi` reports a range error and the resolved port is the default
3000; if it fits, `Atoi` returns the value with a nil error and the resolved
port equals the value. -/
theorem port_int_overflow_fallback (p : Platform) (env : Environ) (v : GoString)
    (h : env "PORT" = some v) (hv : isDecimalInteger v = true) :
    (¬ fitsInt p (decimalValue v) →
      (Atoi p v).2 = some .ErrRange ∧ resolvePort p env = 3000) ∧
    (fitsInt p (decimalValue v) →
      Atoi p v = (decimalValue v, none) ∧ resolvePort p env = decimalValue v) :=
  ⟨fun hfit => ⟨(Atoi_of_integer p v hv).2 hfit, resolvePort_overflow p env v h hv hfit⟩,
   fun hfit => ⟨(Atoi_of_integer p v hv).1 hfit, resolvePort_fits p env v h hv hfit⟩⟩

/-- Witness for C10: `"99999999999999999999"` overflows and falls back to 3000;
`"+42"` and `"-7"` are within range and pass through. -/
theorem port_int_overflow_fallback_witness :
    ((Atoi .word64 (ascii "99999999999999999999")).2 = some .ErrRange ∧
      resolvePort .word64 (fun _ => some (ascii "99999999999999999999")) = 3000) ∧
    (Atoi .word64 (ascii "+42") = (decimalValue (ascii "+42"), none) ∧
      resolvePort .word64 (fun _ => some (ascii "+42")) = decimalValue (ascii "+42")) ∧
    (Atoi .word32 (ascii "-7") = (decimalValue (ascii "-7"), none) ∧
      resolvePort .word32 (fun _ => some (ascii "-7")) = decimalValue (ascii "-7")) :=
  ⟨(port_int_overflow_fallback .word64 (fun _ => some (ascii "99999999999999999999"))
      (ascii "99999999999999999999") rfl (by decide)).1 (by decide),
   (port_int_overflow_fallback .word64 (fun _ => some (ascii "+42"))
      (ascii "+42") rfl (by decide)).2 (by decide),
   (port_int_overflow_fallback .word32 (fun _ => some (ascii "-7"))
      (ascii "-7") rfl (by decide)).2 (by decide)⟩


/-! ## Lifecycle -/

theorem relay_notified (sig : Signal) (h : sig ∈ notified) : relay notified sig = some sig := by
  simp [relay, h]

theorem relay_other (sig : Signal) (h : sig ∉ notified) : relay notified sig = none := by
  simp [relay, h]

theorem mainPath_notified (sig : Signal) (h : sig ∈ notified) (shutdownErr : Option String) :
    mainPath (some sig) shutdownErr = mainStartup ++ .Recv sig :: mainShutdown sig shutdownErr := by
  simp [mainPath, relay_notified sig h]

theorem mainPath_blocked (incoming : Option Signal) (shutdownErr : Option String)
    (h : incoming.bind (relay notified) = none) :
    mainPath incoming shutdownErr = mainStartup := by
  simp [mainPath, h]

theorem bind_relay (incoming : Option Signal) :
    incoming.bind (relay notified) = none ∨
    ∃ sig, sig ∈ notified ∧ incoming = some sig ∧ incoming.bind (relay notified) = some sig := by
  cases incoming with
  | none => exact Or.inl rfl
  | some sig =>
    by_cases h : sig ∈ notified
    · exact Or.inr ⟨sig, h, rfl, by simp [relay_notified sig h]⟩
    · exact Or.inl (by simp [relay_other sig h])

/-- C6: on the main path no `server.Shutdown` happens before a subscribed
signal has been received; each of SIGINT, SIGTERM and SIGHUP leads to the same
events, the signal name in the printed message apart; no other signal is
subscribed, and no other signal leads to a shutdown. -/
theorem shutdown_follows_signal (incoming : Option Signal) (shutdownErr : Option String) :
    (∀ (pre post : List Event) (ctx : Context),
      mainPath incoming shutdownErr = pre ++ .Shutdown ctx :: post →
        ∃ sig, sig ∈ notified ∧ incoming = some sig ∧ .Recv sig ∈ pre) ∧
    (∃ pre post : List Event, ∀ sig, sig ∈ [Signal.SIGINT, Signal.SIGTERM, Signal.SIGHUP] →
      mainPath (some sig) shutdownErr =
        pre ++ [.Recv sig,
          .Print ("\nReceived " ++ sig.String ++ ", shutting down gracefully...\n")] ++ post) ∧
    notified = [Signal.SIGINT, Signal.SIGTERM, Signal.SIGHUP] ∧
    (∀ sig, sig ∉ [Signal.SIGINT, Signal.SIGTERM, Signal.SIGHUP] →
      ∀ ctx, Event.Shutdown ctx ∉ mainPath (some sig) shutdownErr) := by
  refine ⟨?_, ?_, rfl, ?_⟩
  · intro pre post ctx h
    rcases bind_relay incoming with hb | ⟨sig, hsig, hin, hb⟩
    · rw [mainPath_blocked incoming shutdownErr hb] at h
      have hmem : Event.Shutdown ctx ∈ mainStartup := by rw [h]; simp
      simp [mainStartup] at hmem
    · refine ⟨sig, hsig, hin, ?_⟩
      subst hin
      rw [mainPath_notified sig hsig] at h
      have h1 := congrArg (fun l => l.take pre.length) h
      have h2 := congrArg (fun l => l[pre.length]?) h
      simp only [List.take_left, List.getElem?_append_right (Nat.le_refl _),
        Nat.sub_self, List.getElem?_cons_zero] at h1 h2
      rw [← h1]
      generalize pre.length = i at h1 h2
      cases shutdownErr <;>
      · simp only [mainStartup, mainShutdown, List.cons_append, List.nil_append] at h2 ⊢
        rcases i with _ | _ | _ | _ | _ | _ | _ | _ | i <;> simp at h2 ⊢
  · refine ⟨mainStartup, (mainShutdown Signal.SIGINT shutdownErr).drop 1, fun sig hsig => ?_⟩
    rw [mainPath_notified sig hsig]
    simp [mainShutdown]
  · intro sig hsig ctx
    rw [mainPath_blocked (some sig) shutdownErr (by simpa using relay_other sig hsig)]
    simp [mainStartup]


/-- C7: in every run that reaches shutdown, `server.Shutdown` is called exactly
once, with a context whose timeout is exactly one second and which is created
after the signal has been received, whatever the port, the signal and the
result of the shutdown; a failed shutdown is not retried. -/
theorem shutdown_once_with_one_second (p : Platform) (env : Environ)
    (listenErr : Option ServeError) (sig : Signal) (hsig : sig ∈ notified)
    (shutdownErr : Option String) :
    (run p env listenErr (some sig) shutdownErr).main.countP isShutdown = 1 ∧
    (∃ pre post : List Event,
      (run p env listenErr (some sig) shutdownErr).main =
        pre ++ [.WithTimeout 1000000000, .Shutdown ⟨some 1000000000⟩] ++ post ∧
      Event.Recv sig ∈ pre ∧
      (∀ d, Event.WithTimeout d ∉ pre) ∧
      pre.countP isShutdown = 0 ∧ post.countP isShutdown = 0) := by
  have hmain : (run p env listenErr (some sig) shutdownErr).main
      = mainStartup ++ .Recv sig :: mainShutdown sig shutdownErr := by
    simp [run, mainPath_notified sig hsig]
  rw [hmain]
  constructor
  · cases shutdownErr <;>
      simp [mainStartup, mainShutdown, isShutdown, List.countP_cons]
  · refine ⟨mainStartup ++ [.Recv sig,
        .Print ("\nReceived " ++ sig.String ++ ", shutting down gracefully...\n")],
      (mainShutdown sig shutdownErr).drop 3, ?_, ?_, ?_, ?_, ?_⟩
    · simp [mainShutdown, WithTimeout, Background, Second]
    · simp
    · intro d
      simp [mainStartup]
    · simp [mainStartup, isShutdown, List.countP_cons]
    · cases shutdownErr <;> simp [mainShutdown, isShutdown, List.countP_cons]

/-- Witness for C7: SIGTERM on a 64-bit platform with `PORT` unset, and a
shutdown that fails with the deadline error. -/
theorem shutdown_once_with_one_second_witness :
    (run .word64 (fun _ => none) none (some .SIGTERM)
      (some "context deadline exceeded")).main.countP isShutdown = 1 ∧
    (∃ pre post : List Event,
      (run .word64 (fun _ => none) none (some .SIGTERM)
        (some "context deadline exceeded")).main =
        pre ++ [.WithTimeout 1000000000, .Shutdown ⟨some 1000000000⟩] ++ post ∧
      Event.Recv .SIGTERM ∈ pre ∧
      (∀ d, Event.WithTimeout d ∉ pre) ∧
      pre.countP isShutdown = 0 ∧ post.countP isShutdown = 0) :=
  shutdown_once_with_one_second .word64 (fun _ => none) none .SIGTERM (by decide)
    (some "context deadline exceeded")

theorem print_error_ne_closed (e : String) :
    Event.Print ("Server shutdown error: " ++ e ++ "\n") ≠ Event.Print "Server closed.\n" := by
  intro h
  have h2 := congrArg String.data (Event.Print.inj h)
  simp only [String.data_append] at h2
  simp at h2

theorem print_error_ne_received (e n : String) :
    Event.Print ("Server shutdown error: " ++ e ++ "\n")
      ≠ Event.Print ("\nReceived " ++ n ++ ", shutting down gracefully...\n") := by
  intro h
  have h2 := congrArg String.data (Event.Print.inj h)
  simp only [String.data_append] at h2
  simp at h2

theorem print_closed_ne_received (n : String) :
    Event.Print "Server closed.\n"
      ≠ Event.Print ("\nReceived " ++ n ++ ", shutting down gracefully...\n") := by
  intro h
  have h2 := congrArg String.data (Event.Print.inj h)
  simp only [String.data_append] at h2
  simp at h2

/-- C8: for every result of `server.Shutdown`: a non-nil error has
`Server shutdown error: <err>` printed and `Server closed.` not; a nil error
has `Server closed.` printed and no error line; in both cases `main` returns
normally, no `os.Exit` is made and the exit status is 0. -/
theorem shutdown_error_reported (sig : Signal) (hsig : sig ∈ notified)
    (shutdownErr : Option String) :
    (∀ e, shutdownErr = some e →
      Event.Print ("Server shutdown error: " ++ e ++ "\n") ∈ mainPath (some sig) shutdownErr ∧
      Event.Print "Server closed.\n" ∉ mainPath (some sig) shutdownErr) ∧
    (shutdownErr = none →
      Event.Print "Server closed.\n" ∈ mainPath (some sig) shutdownErr ∧
      ∀ e, Event.Print ("Server shutdown error: " ++ e ++ "\n")
        ∉ mainPath (some sig) shutdownErr) ∧
    (mainPath (some sig) shutdownErr).getLast? = some .Return ∧
    (∀ code, Event.Exit code ∉ mainPath (some sig) shutdownErr) ∧
    exitStatus (mainPath (some sig) shutdownErr) = some 0 := by
  rw [mainPath_notified sig hsig]
  refine ⟨?_, ?_, ?_, ?_, ?_⟩
  · intro e he
    subst he
    have h1 := (print_error_ne_closed e).symm
    have h2 := print_closed_ne_received sig.String
    simp [mainStartup, mainShutdown, h1, h2]
  · intro he
    subst he
    refine ⟨by simp [mainStartup, mainShutdown], fun e => ?_⟩
    have h1 := print_error_ne_closed e
    have h2 := print_error_ne_received e sig.String
    simp [mainStartup, mainShutdown, h1, h2]
  · cases shutdownErr <;> simp [mainStartup, mainShutdown]
  · intro code
    cases shutdownErr <;> simp [mainStartup, mainShutdown]
  · cases shutdownErr <;> simp [mainStartup, mainShutdown, exitStatus]

/-- Witness for C8: SIGINT, with a shutdown that fails with the deadline error. -/
theorem shutdown_error_reported_witness :
    Event.Print "Server shutdown error: context deadline exceeded\n"
      ∈ mainPath (some .SIGINT) (some "context deadline exceeded") ∧
    Event.Print "Server closed.\n"
      ∉ mainPath (some .SIGINT) (some "context deadline exceeded") ∧
    exitStatus (mainPath (some .SIGINT) (some "context deadline exceeded")) = some 0 :=
  ⟨((shutdown_error_reported .SIGINT (by decide) (some "context deadline exceeded")).1
      "context deadline exceeded" rfl).1,
   ((shutdown_error_reported .SIGINT (by decide) (some "context deadline exceeded")).1
      "context deadline exceeded" rfl).2,
   (shutdown_error_reported .SIGINT (by decide) (some "context deadline exceeded")).2.2.2.2⟩




/-! ## Routing -/

theorem ascii_health : ascii "/health" = [47, 104, 101, 97, 108, 116, 104] := by decide

theorem ascii_root : ascii "/" = [47] := by decide

theorem patternMatches_health (path : GoString) :
    patternMatches (ascii "/health") path = decide (ascii "/health" = path) := by
  have h : (ascii "/health").getLast? ≠ some 47 := by decide
  rw [patternMatches, if_neg h]

theorem patternMatches_root (path : GoString) :
    patternMatches (ascii "/") path = decide (path.head? = some 47) := by
  have h : (ascii "/").getLast? = some 47 := by decide
  rw [patternMatches, if_pos h, ascii_root]
  cases path with
  | nil => simp
  | cons c cs =>
    by_cases hc : c = 47
    · simp [hc]
    · have hc2 : ¬ (47 : Byte) = c := fun h => hc h.symm
      simp [hc, hc2, List.isPrefixOf]

/-- The registration found for the path `/health`. -/
theorem lookup_health :
    registeredMux.lookup (ascii "/health") = some ⟨ascii "/health", healthHandler⟩ := by
  have h1 := patternMatches_health (ascii "/health")
  have h2 := patternMatches_root (ascii "/health")
  have h3 : (ascii "/health").head? = some 47 := by decide
  have h4 : ¬ ((ascii "/health").length < (ascii "/").length) := by decide
  simp only [h3, decide_True] at h1 h2
  simp [ServeMux.lookup, registeredMux, HandleFunc, List.filter, h1, h2, h4]

/-- The registration found for a rooted path other than `/health`. -/
theorem lookup_other (path : GoString) (hroot : path.head? = some 47)
    (hne : path ≠ ascii "/health") :
    registeredMux.lookup path = some ⟨ascii "/", rootHandler⟩ := by
  have h1 := patternMatches_health path
  have h2 := patternMatches_root path
  have hne2 : ¬ ascii "/health" = path := fun h => hne h.symm
  simp only [hroot, hne2, decide_True, decide_False] at h1 h2
  simp [ServeMux.lookup, registeredMux, HandleFunc, List.filter, h1, h2]

/-- No registration is found for a path that does not begin with a slash. -/
theorem lookup_unrooted (path : GoString) (hroot : path.head? ≠ some 47) :
    registeredMux.lookup path = none := by
  have h1 := patternMatches_health path
  have h2 := patternMatches_root path
  have hne2 : ¬ ascii "/health" = path := by
    intro h; rw [← h] at hroot; exact hroot (by decide)
  simp only [hroot, hne2, decide_False] at h1 h2
  simp [ServeMux.lookup, registeredMux, HandleFunc, List.filter, h1, h2]

/-- With the two patterns of `main` no path is redirected to its slash form. -/
theorem shouldRedirect_registered (path : GoString) :
    registeredMux.shouldRedirect path = false := by
  cases path with
  | nil => simp [ServeMux.shouldRedirect, registeredMux, HandleFunc, ascii_health, ascii_root]
  | cons c cs =>
    simp only [ServeMux.shouldRedirect, registeredMux, HandleFunc, ascii_health, ascii_root]
    have h1 : ¬ ([47, 104, 101, 97, 108, 116, 104] : GoString) = (c :: cs) ++ [47] := by
      intro h
      have h2 := congrArg List.reverse h
      simp at h2
    have h2 : ¬ ([47] : GoString) = (c :: cs) ++ [47] := by
      intro h
      have h3 := congrArg List.length h
      simp at h3
    have hany : (List.any
        ([] ++ [({ pattern := [47, 104, 101, 97, 108, 116, 104], handler := healthHandler } :
          MuxEntry)] ++ [{ pattern := [47], handler := rootHandler }])
        fun e => decide (e.pattern = c :: cs ++ [47])) = false := by
      simp only [List.nil_append, List.cons_append, List.any_cons, List.any_nil,
        Bool.or_false, Bool.or_eq_false_iff, decide_eq_false_iff_not]
      exact ⟨h1, h2⟩
    rw [hany]
    simp


/-- The handler the mux of `main` has for a path: the health handler for
`/health`, the root handler for any other rooted path, `NotFound` otherwise. -/
theorem handler_cases (path : GoString) :
    (path = ascii "/health" ∧ registeredMux.handler path = healthHandler) ∨
    (path ≠ ascii "/health" ∧ path.head? = some 47 ∧
      registeredMux.handler path = rootHandler) ∨
    (path.head? ≠ some 47 ∧ registeredMux.handler path = NotFound) := by
  by_cases hh : path = ascii "/health"
  · left
    subst hh
    exact ⟨rfl, by simp only [ServeMux.handler, lookup_health]⟩
  · by_cases hr : path.head? = some 47
    · right; left
      exact ⟨hh, hr, by simp only [ServeMux.handler, lookup_other path hr hh]⟩
    · right; right
      exact ⟨hr, by simp only [ServeMux.handler, lookup_unrooted path hr]⟩

/-- The reply of a handler that makes one `Write` of a non-empty text on a
fresh writer: status 200, and the text unless the request is a `HEAD`. -/
theorem reply_of_write (data : GoString) (r : Request) :
    Handler.reply (fun w _ => w.Write data) r =
      .written 200 (if r.method = "HEAD" then [] else data) := by
  by_cases hm : r.method = "HEAD"
  · simp [Handler.reply, ResponseWriter.fresh, ResponseWriter.Write,
      ResponseWriter.WriteHeader, ResponseWriter.finishRequest, bodyAllowedForStatus, hm]
  · simp [Handler.reply, ResponseWriter.fresh, ResponseWriter.Write,
      ResponseWriter.WriteHeader, ResponseWriter.finishRequest, bodyAllowedForStatus, hm]

theorem reply_NotFound (r : Request) :
    Handler.reply NotFound r =
      .written 404 (if r.method = "HEAD" then [] else ascii "404 page not found\n") := by
  by_cases hm : r.method = "HEAD"
  · simp [Handler.reply, NotFound, ResponseWriter.fresh, ResponseWriter.Write,
      ResponseWriter.WriteHeader, ResponseWriter.finishRequest, bodyAllowedForStatus, hm]
  · simp [Handler.reply, NotFound, ResponseWriter.fresh, ResponseWriter.Write,
      ResponseWriter.WriteHeader, ResponseWriter.finishRequest, bodyAllowedForStatus, hm]

/-- The reply of the server to a request whose target is not the asterisk. -/
theorem serve_parsed (method : String) (path : GoString) :
    serve ⟨method, .parsed path⟩ =
      if method = "CONNECT" ∨ cleanPath path = path then
        Handler.reply (registeredMux.handler path) ⟨method, .parsed path⟩
      else .redirect 301 (cleanPath path) := by
  simp only [serve, ServeMux.ServeHTTP, ServeMux.Handler, Request.path,
    shouldRedirect_registered]
  by_cases hc : method = "CONNECT"
  · simp [hc]
  · by_cases hp : cleanPath path = path
    · simp [hc, hp]
    · simp [hc, hp]


theorem cleanPath_health : cleanPath (ascii "/health") = ascii "/health" := by decide

theorem reply_health (r : Request) :
    Handler.reply healthHandler r =
      .written 200 (if r.method = "HEAD" then [] else ascii "OK") :=
  reply_of_write (ascii "OK") r

theorem reply_root (r : Request) :
    Handler.reply rootHandler r =
      .written 200 (if r.method = "HEAD" then [] else ascii "Hello from Golang!") :=
  reply_of_write (ascii "Hello from Golang!") r

/-- The reply to a request for the path `/health`. -/
theorem serve_health (method : String) :
    serve ⟨method, .parsed (ascii "/health")⟩ =
      .written 200 (if method = "HEAD" then [] else ascii "OK") := by
  rw [serve_parsed, if_pos (Or.inr cleanPath_health)]
  simp only [ServeMux.handler, lookup_health]
  exact reply_health _

/-- The reply to a request for a rooted path other than `/health` that is a
`CONNECT` or whose path is in canonical form. -/
theorem serve_other (method : String) (path : GoString)
    (hroot : path.head? = some 47) (hne : path ≠ ascii "/health")
    (hcanon : method = "CONNECT" ∨ cleanPath path = path) :
    serve ⟨method, .parsed path⟩ =
      .written 200 (if method = "HEAD" then [] else ascii "Hello from Golang!") := by
  rw [serve_parsed, if_pos hcanon]
  simp only [ServeMux.handler, lookup_other path hroot hne]
  exact reply_root _

/-- Only the path `/health` is answered with the body `OK`. -/
theorem serve_OK_only_health (method : String) (path : GoString)
    (h : serve ⟨method, .parsed path⟩ = .written 200 (ascii "OK")) :
    path = ascii "/health" := by
  by_contra hne
  rw [serve_parsed] at h
  split_ifs at h with hc
  · rcases handler_cases path with ⟨h1, _⟩ | ⟨_, _, h2⟩ | ⟨_, h3⟩
    · exact hne h1
    · rw [h2, reply_root] at h
      split_ifs at h <;> exact absurd h (by decide)
    · rw [h3, reply_NotFound] at h
      split_ifs at h <;> exact absurd h (by decide)

/-- The path `/health` is never answered with the body `Hello from Golang!`. -/
theorem serve_health_not_hello (method : String) :
    serve ⟨method, .parsed (ascii "/health")⟩ ≠ .written 200 (ascii "Hello from Golang!") := by
  rw [serve_health]
  split_ifs <;> decide

/-- C4, as stated, fails: the reply to `HEAD /health` has status 200 and an
empty body, not the two bytes `OK`. -/
theorem health_head_has_no_body :
    serve ⟨"HEAD", .parsed (ascii "/health")⟩ = .written 200 [] ∧
    serve ⟨"HEAD", .parsed (ascii "/health")⟩ ≠ .written 200 (ascii "OK") := by
  have h := serve_health "HEAD"
  rw [if_pos rfl] at h
  rw [h]
  exact ⟨rfl, by decide⟩

/-- C4, amended: a request whose path is exactly `/health` is dispatched to
the health handler whatever its method, and the reply has status 200; its body
is exactly the two bytes `OK` for every method other than `HEAD`, and empty
for `HEAD`.  The handler does not look at the request and sets no status other
than the implicit 200. -/
theorem health_endpoint (method : String) :
    registeredMux.handler (ascii "/health") = healthHandler ∧
    registeredMux.Handler ⟨method, .parsed (ascii "/health")⟩ = .handler healthHandler ∧
    serve ⟨method, .parsed (ascii "/health")⟩ =
      .written 200 (if method = "HEAD" then [] else ascii "OK") ∧
    ascii "OK" = [79, 75] ∧
    (∀ (w : ResponseWriter) (r r2 : Request), healthHandler w r = healthHandler w r2) ∧
    (∀ (w : ResponseWriter) (r : Request),
      (healthHandler w r).status = some (w.status.getD 200)) := by
  have hh : registeredMux.handler (ascii "/health") = healthHandler := by
    simp only [ServeMux.handler, lookup_health]
  refine ⟨hh, ?_, serve_health method, by decide, fun _ _ _ => rfl, ?_⟩
  · simp only [ServeMux.Handler, Request.path, shouldRedirect_registered, cleanPath_health, hh]
    by_cases hc : method = "CONNECT" <;> simp [hc]
  · intro w r
    rcases w with ⟨m, st, body⟩
    cases st <;>
      simp only [healthHandler, ResponseWriter.Write, ResponseWriter.WriteHeader] <;>
      split_ifs <;> rfl


/-- C5, as stated, fails: `//health` and `/foo//bar` are request paths other
than `/health`, yet a `GET` for them is answered with a redirect to the cleaned
path; a `CONNECT` with the empty path is answered with 404; and the reply to
`HEAD /` has an empty body. -/
theorem noncanonical_path_redirected :
    serve ⟨"GET", .parsed (ascii "//health")⟩ = .redirect 301 (ascii "/health") ∧
    serve ⟨"GET", .parsed (ascii "/foo//bar")⟩ = .redirect 301 (ascii "/foo/bar") ∧
    serve ⟨"GET", .parsed (ascii "/health/../health")⟩ = .redirect 301 (ascii "/health") ∧
    serve ⟨"CONNECT", .parsed (ascii "")⟩ = .written 404 (ascii "404 page not found\n") ∧
    serve ⟨"HEAD", .parsed (ascii "/")⟩ = .written 200 [] ∧
    serve ⟨"GET", .parsed (ascii "//health")⟩ ≠ .written 200 (ascii "Hello from Golang!") := by
  decide


/-! ## Canonical paths -/

theorem foldl_append_buf (e d : GoString) :
    e.foldl lazybuf.append ⟨d, d.length⟩ = ⟨d ++ e, (d ++ e).length⟩ := by
  induction e generalizing d with
  | nil => simp
  | cons c e ih =>
    have h1 : lazybuf.append ⟨d, d.length⟩ c = ⟨d ++ [c], (d ++ [c]).length⟩ := by
      simp [lazybuf.append]
    rw [List.foldl_cons, h1, ih]
    simp

theorem canonScan_element (cur rest : GoString) :
    canonScan cur rest =
      canonScan (cur ++ rest.takeWhile (fun b => b.val ≠ 47))
        (rest.dropWhile (fun b => b.val ≠ 47)) := by
  induction rest generalizing cur with
  | nil => simp
  | cons c t ih =>
    by_cases hc : c.val = 47
    · simp [List.takeWhile, List.dropWhile, hc]
    · rw [canonScan, if_neg hc, ih]
      simp [List.takeWhile, List.dropWhile, hc]


theorem cleanLoop_nil (rooted : Bool) (fuel : Nat) (out : lazybuf) (dotdot : Nat) :
    cleanLoop rooted fuel out dotdot [] = out := by
  cases fuel <;> simp [cleanLoop]

theorem cleanLoop_slash (rooted : Bool) (fuel : Nat) (out : lazybuf) (dotdot : Nat)
    (t : GoString) :
    cleanLoop rooted (fuel + 1) out dotdot ((47 : Byte) :: t) = cleanLoop rooted fuel out dotdot t := by
  rw [cleanLoop]
  exact if_pos (by decide)

theorem append_buf (d : GoString) (c : Byte) :
    lazybuf.append ⟨d, d.length⟩ c = ⟨d ++ [c], (d ++ [c]).length⟩ := by
  simp [lazybuf.append]

/-- One iteration of the loop of `path.Clean` on a real path element. -/
theorem cleanLoop_element (fuel : Nat) (d : GoString) (c : Byte) (t : GoString)
    (hc : c.val ≠ 47)
    (hdot : ¬ (c.val = 46 ∧ (t = [] ∨ t.head? = some 47)))
    (hdd : ¬ (c.val = 46 ∧ t.head? = some 46 ∧ (t.tail = [] ∨ t.tail.head? = some 47))) :
    cleanLoop true (fuel + 1) ⟨d, d.length⟩ 1 (c :: t) =
      cleanLoop true fuel
        ⟨d ++ (if d.length = 1 then [] else ([47] : GoString))
            ++ (c :: t).takeWhile (fun b => b.val ≠ 47),
         (d ++ (if d.length = 1 then [] else ([47] : GoString))
            ++ (c :: t).takeWhile (fun b => b.val ≠ 47)).length⟩
        1 ((c :: t).dropWhile (fun b => b.val ≠ 47)) := by
  rw [cleanLoop]
  rw [if_neg hc, if_neg hdot, if_neg hdd]
  dsimp only
  split_ifs with h1 h2 h2
  · simp [h2] at h1
  · rw [append_buf, foldl_append_buf]
  · rw [foldl_append_buf, List.append_nil]
  · simp [h2] at h1


/-- The first element of a canonical remainder is a real path element. -/
theorem canon_first (c : Byte) (t : GoString) (h : canonScan [] (c :: t) = true) :
    c.val ≠ 47 ∧ ¬ (c.val = 46 ∧ (t = [] ∨ t.head? = some 47)) ∧
    ¬ (c.val = 46 ∧ t.head? = some 46 ∧ (t.tail = [] ∨ t.tail.head? = some 47)) := by
  have hc : c.val ≠ 47 := by
    intro hc
    rw [canonScan, if_pos hc] at h
    simp at h
  rw [canonScan, if_neg hc, List.nil_append] at h
  refine ⟨hc, ?_, ?_⟩
  · rintro ⟨h46, ht⟩
    have hc46 : c = 46 := Fin.ext h46
    subst hc46
    rcases ht with ht | ht
    · subst ht
      simp [canonScan] at h
    · cases t with
      | nil => simp at ht
      | cons b t2 =>
        simp only [List.head?_cons, Option.some.injEq] at ht
        subst ht
        simp [canonScan] at h
        exact h.1 rfl
  · rintro ⟨h46, ht, ht2⟩
    have hc46 : c = 46 := Fin.ext h46
    subst hc46
    cases t with
    | nil => simp at ht
    | cons b t2 =>
      simp only [List.head?_cons, Option.some.injEq] at ht
      subst ht
      rw [canonScan, if_neg (by decide)] at h
      simp only [List.tail_cons] at ht2
      rcases ht2 with ht2 | ht2
      · subst ht2
        simp [canonScan] at h
      · cases t2 with
        | nil => simp at ht2
        | cons b2 t3 =>
          simp only [List.head?_cons, Option.some.injEq] at ht2
          subst ht2
          simp [canonScan] at h
          exact h.1 rfl

theorem trimSlash_of_no_slash (e : GoString) (h : ∀ b ∈ e, b.val ≠ 47) : trimSlash e = e := by
  unfold trimSlash
  rw [if_neg]
  intro hl
  exact h _ (List.mem_of_getLast?_eq_some hl) rfl

theorem trimSlash_element_slash (e : GoString) : trimSlash (e ++ [47]) = e := by
  simp [trimSlash]

theorem trimSlash_element_more (e rest : GoString) (hne : rest ≠ []) :
    trimSlash (e ++ 47 :: rest) = e ++ 47 :: trimSlash rest := by
  obtain ⟨b, t, rfl⟩ : ∃ b t, rest = b :: t := by
    cases rest with
    | nil => exact absurd rfl hne
    | cons b t => exact ⟨b, t, rfl⟩
  have h1 : (e ++ 47 :: b :: t).getLast? = (b :: t).getLast? := by
    rw [List.getLast?_append, List.getLast?_cons_cons]
    cases hl : (b :: t).getLast? with
    | none => simp at hl
    | some x => rfl
  have h2 : (e ++ 47 :: b :: t).dropLast = e ++ 47 :: (b :: t).dropLast := by
    rw [List.dropLast_append_cons, List.dropLast_cons₂]
  unfold trimSlash
  rw [h1, h2]
  split_ifs <;> rfl


/-- On a canonical remainder the loop of `path.Clean` copies the elements,
dropping only a trailing slash. -/
theorem cleanLoop_canonical (fuel : Nat) :
    ∀ (rest d : GoString), rest.length ≤ fuel → rest ≠ [] → canonScan [] rest = true →
      d ≠ [] →
      cleanLoop true fuel ⟨d, d.length⟩ 1 rest =
        ⟨d ++ (if d.length = 1 then [] else ([47] : GoString)) ++ trimSlash rest,
         (d ++ (if d.length = 1 then [] else ([47] : GoString)) ++ trimSlash rest).length⟩ := by
  induction fuel using Nat.strong_induction_on with
  | _ fuel ih =>
    intro rest d hlen hne hcanon hd
    cases rest with
    | nil => exact absurd rfl hne
    | cons c t =>
      obtain ⟨hc, hdot, hdd⟩ := canon_first c t hcanon
      cases fuel with
      | zero => simp at hlen
      | succ f =>
        rw [cleanLoop_element f d c t hc hdot hdd]
        have hsplit := List.takeWhile_append_dropWhile (fun b : Byte => decide (b.val ≠ 47)) (c :: t)
        have hcanon2 := hcanon
        rw [canonScan_element, List.nil_append] at hcanon2
        have hnoslash : ∀ b ∈ (c :: t).takeWhile (fun b => decide (b.val ≠ 47)), b.val ≠ 47 := by
          intro b hb
          simpa using List.mem_takeWhile_imp hb
        have hene : (c :: t).takeWhile (fun b => decide (b.val ≠ 47)) ≠ [] := by
          simp [List.takeWhile, hc]
        have hhead := List.head?_dropWhile_not (fun b : Byte => decide (b.val ≠ 47)) (c :: t)
        generalize (c :: t).takeWhile (fun b => decide (b.val ≠ 47)) = e at *
        generalize (c :: t).dropWhile (fun b => decide (b.val ≠ 47)) = tail at *
        have hlen2 : e.length + tail.length ≤ f + 1 := by
          rw [← List.length_append, hsplit]; exact hlen
        have helen : 1 ≤ e.length := by
          cases e with
          | nil => exact absurd rfl hene
          | cons _ _ => simp
        cases tail with
        | nil =>
          rw [cleanLoop_nil]
          rw [List.append_nil] at hsplit
          rw [← hsplit, trimSlash_of_no_slash e hnoslash]
        | cons b rest2 =>
          have hb : b = 47 := by
            simp only [List.head?_cons] at hhead
            exact Fin.ext (by simpa using hhead)
          subst hb
          have hcanon3 : canonScan [] rest2 = true := by
            rw [canonScan] at hcanon2
            have h47 : ((47 : Byte)).val = 47 := rfl
            simp only [h47, if_true, Bool.and_eq_true] at hcanon2
            exact hcanon2.2
          simp only [List.length_cons] at hlen2
          obtain ⟨g, rfl⟩ : ∃ g, f = g + 1 := ⟨f - 1, by omega⟩
          rw [cleanLoop_slash]
          cases rest2 with
          | nil =>
            rw [cleanLoop_nil, ← hsplit, trimSlash_element_slash]
          | cons b2 rest3 =>
            have hd2 : d ++ (if d.length = 1 then [] else ([47] : GoString)) ++ e ≠ [] := by
              simp [hd]
            have hl2 : ¬ (d ++ (if d.length = 1 then [] else ([47] : GoString)) ++ e).length = 1 := by
              have hdl : 1 ≤ d.length := by
                cases d with
                | nil => exact absurd rfl hd
                | cons _ _ => simp
              simp only [List.length_append]
              omega
            rw [ih g (by omega) (b2 :: rest3) _ (by simp only [List.length_cons] at hlen2 ⊢; omega)
              (by simp) hcanon3 hd2]
            rw [if_neg hl2, ← hsplit, trimSlash_element_more e (b2 :: rest3) (by simp)]
            simp


/-- On a canonical path `path.Clean` drops a trailing slash and nothing else. -/
theorem Clean_of_canonical (rest : GoString) (h : canonScan [] rest = true) :
    Clean ((47 : Byte) :: rest) = (47 : Byte) :: trimSlash rest := by
  have h0 : lazybuf.append ⟨(47 : Byte) :: rest, 0⟩ 47 = ⟨[47], ([47] : GoString).length⟩ := by
    simp [lazybuf.append]
  unfold Clean
  rw [if_neg (by simp)]
  simp only [List.head?_cons, decide_True, if_true, List.tail_cons, h0]
  cases rest with
  | nil =>
    rw [cleanLoop_nil]
    simp [lazybuf.string, trimSlash]
  | cons c t =>
    rw [cleanLoop_canonical _ (c :: t) [47] (by simp) (by simp) h (by simp)]
    simp [lazybuf.string]

/-- The function `cleanPath` of `net/http` leaves every canonical path as it is. -/
theorem cleanPath_of_canonical (p : GoString) (h : isCanonicalPath p = true) :
    cleanPath p = p := by
  cases p with
  | nil => simp [isCanonicalPath] at h
  | cons c rest =>
    simp only [isCanonicalPath, Bool.and_eq_true, decide_eq_true_eq] at h
    obtain ⟨hc, hcanon⟩ := h
    have hc47 : c = 47 := Fin.ext hc
    subst hc47
    unfold cleanPath
    rw [if_neg (by simp)]
    simp only [List.head?_cons, ne_eq, not_true_eq_false, if_false]
    rw [Clean_of_canonical rest hcanon, ascii_root]
    cases rest with
    | nil => simp [trimSlash]
    | cons b t =>
      obtain ⟨hb, _, _⟩ := canon_first b t hcanon
      by_cases hl : (b :: t).getLast? = some 47
      · obtain ⟨x, hx⟩ := List.getLast?_eq_some_iff.mp hl
        have hxne : x ≠ [] := by
          intro hx0
          rw [hx0] at hx
          simp only [List.nil_append, List.cons.injEq] at hx
          exact hb (by rw [hx.1]; rfl)
        have ht : trimSlash (b :: t) = x := by
          rw [hx, trimSlash_element_slash]
        rw [ht, hx]
        have hp : ((47 : Byte) :: (x ++ [47])).getLast? = some 47 := by
          rw [show (47 : Byte) :: (x ++ [47]) = (47 :: x) ++ [47] from rfl, List.getLast?_concat]
        have hnp : ¬ ((47 : Byte) :: x = [47]) := by
          simpa using hxne
        have hpre : ((47 : Byte) :: x).isPrefixOf (47 :: (x ++ [47])) = true := by
          rw [List.isPrefixOf_iff_prefix]
          exact ⟨[47], rfl⟩
        rw [if_pos ⟨hp, hnp⟩, if_pos ⟨by simp, hpre⟩]
      · have ht : trimSlash (b :: t) = b :: t := by
          unfold trimSlash
          rw [if_neg hl]
        rw [ht]
        have hp : ¬ (((47 : Byte) :: b :: t).getLast? = some 47 ∧ ¬ ((47 : Byte) :: b :: t = [47])) := by
          rw [List.getLast?_cons_cons]
          exact fun hh => hl hh.1
        rw [if_neg hp]


theorem head_of_canonical (p : GoString) (h : isCanonicalPath p = true) :
    p.head? = some 47 := by
  cases p with
  | nil => simp [isCanonicalPath] at h
  | cons c rest =>
    simp only [isCanonicalPath, Bool.and_eq_true, decide_eq_true_eq] at h
    have hc : c = 47 := Fin.ext h.1
    rw [List.head?_cons, hc]

/-- C5, amended: for every HTTP method and every request path other than
exactly `/health` that is in canonical form (it begins with a slash, has no
empty, `.` or `..` element, and may end in one slash), and for `CONNECT`, whose
path is not canonicalized, every path that begins with a slash, the reply has
status 200 and the body `Hello from Golang!`, empty for `HEAD`.  The two routes
are disjoint: only the path `/health` is answered with the body `OK`, and it is
never answered with `Hello from Golang!`. -/
theorem root_catch_all (method : String) (path : GoString)
    (hne : path ≠ ascii "/health")
    (hpath : isCanonicalPath path = true ∨ (method = "CONNECT" ∧ path.head? = some 47)) :
    serve ⟨method, .parsed path⟩ =
      .written 200 (if method = "HEAD" then [] else ascii "Hello from Golang!") ∧
    (∀ (m : String) (q : GoString),
      serve ⟨m, .parsed q⟩ = .written 200 (ascii "OK") → q = ascii "/health") ∧
    (∀ m : String,
      serve ⟨m, .parsed (ascii "/health")⟩ ≠ .written 200 (ascii "Hello from Golang!")) := by
  refine ⟨?_, serve_OK_only_health, serve_health_not_hello⟩
  rcases hpath with hcanon | ⟨hconnect, hroot⟩
  · exact serve_other method path (head_of_canonical path hcanon) hne
      (Or.inr (cleanPath_of_canonical path hcanon))
  · exact serve_other method path hroot hne (Or.inl hconnect)

/-- Witness for C5 (amended): the paths `/`, `/foo`, `/health/` and `/healthz`
with several methods, `HEAD /` and a `CONNECT` with a path that is not
canonical. -/
theorem root_catch_all_witness :
    serve ⟨"GET", .parsed (ascii "/")⟩ = .written 200 (ascii "Hello from Golang!") ∧
    serve ⟨"POST", .parsed (ascii "/foo")⟩ = .written 200 (ascii "Hello from Golang!") ∧
    serve ⟨"DELETE", .parsed (ascii "/health/")⟩ = .written 200 (ascii "Hello from Golang!") ∧
    serve ⟨"PUT", .parsed (ascii "/healthz")⟩ = .written 200 (ascii "Hello from Golang!") ∧
    serve ⟨"HEAD", .parsed (ascii "/")⟩ = .written 200 [] ∧
    serve ⟨"CONNECT", .parsed (ascii "//x")⟩ = .written 200 (ascii "Hello from Golang!") :=
  ⟨(root_catch_all "GET" (ascii "/") (by decide) (Or.inl (by decide))).1,
   (root_catch_all "POST" (ascii "/foo") (by decide) (Or.inl (by decide))).1,
   (root_catch_all "DELETE" (ascii "/health/") (by decide) (Or.inl (by decide))).1,
   (root_catch_all "PUT" (ascii "/healthz") (by decide) (Or.inl (by decide))).1,
   (root_catch_all "HEAD" (ascii "/") (by decide) (Or.inl (by decide))).1,
   (root_catch_all "CONNECT" (ascii "//x") (by decide) (Or.inr ⟨rfl, by decide⟩)).1⟩

theorem print_running_ne_error (port msg : String) :
    Event.Print ("Server running on http://localhost:" ++ port ++ "\n")
      ≠ Event.Print ("Server error: " ++ msg ++ "\n") := by
  intro h
  have h2 := congrArg String.data (Event.Print.inj h)
  simp only [String.data_append] at h2
  simp at h2

/-- C9: for every error returned by `ListenAndServe`, `Server error: <err>` is
printed iff the error is non-nil and is not `http.ErrServerClosed`; in every
case the goroutine then just returns: it starts the listener on the resolved
address, makes no `os.Exit`, and the process has no exit status on its account.
Whatever `ListenAndServe` returned, the main path registers the handlers,
starts the goroutine, subscribes to the three signals and stays there until a
subscribed signal is received; then it runs the shutdown sequence: the
message, the one second context, `server.Shutdown`, the result line, and the
return of `main`. -/
theorem serve_error_reported (p : Platform) (env : Environ) (listenErr : Option ServeError)
    (incoming : Option Signal) (shutdownErr : Option String) :
    ((∃ msg, Event.Print ("Server error: " ++ msg ++ "\n")
        ∈ (run p env listenErr incoming shutdownErr).background) ↔
      (listenErr ≠ none ∧ listenErr ≠ some .ErrServerClosed)) ∧
    (∀ msg, listenErr = some (.other msg) →
      (run p env listenErr incoming shutdownErr).background =
        [.Print ("Server running on http://localhost:" ++ formatInt (resolvePort p env) ++ "\n"),
         .ListenAndServe (":" ++ formatInt (resolvePort p env)),
         .Print ("Server error: " ++ msg ++ "\n"),
         .Return]) ∧
    ((listenErr = none ∨ listenErr = some .ErrServerClosed) →
      (run p env listenErr incoming shutdownErr).background =
        [.Print ("Server running on http://localhost:" ++ formatInt (resolvePort p env) ++ "\n"),
         .ListenAndServe (":" ++ formatInt (resolvePort p env)),
         .Return]) ∧
    (∀ code, Event.Exit code ∉ (run p env listenErr incoming shutdownErr).background) ∧
    (incoming.bind (relay notified) = none →
      (run p env listenErr incoming shutdownErr).main =
        [.HandleFunc (ascii "/health"), .HandleFunc (ascii "/"), .Go,
         .Notify [Signal.SIGINT, Signal.SIGTERM, Signal.SIGHUP]] ∧
      exitStatus (run p env listenErr incoming shutdownErr).main = none) ∧
    (∀ sig, sig ∈ [Signal.SIGINT, Signal.SIGTERM, Signal.SIGHUP] → incoming = some sig →
      (run p env listenErr incoming shutdownErr).main =
        [.HandleFunc (ascii "/health"), .HandleFunc (ascii "/"), .Go,
         .Notify [Signal.SIGINT, Signal.SIGTERM, Signal.SIGHUP],
         .Recv sig,
         .Print ("\nReceived " ++ sig.String ++ ", shutting down gracefully...\n"),
         .WithTimeout 1000000000,
         .Shutdown ⟨some 1000000000⟩,
         .Print (match shutdownErr with
           | some err => "Server shutdown error: " ++ err ++ "\n"
           | none => "Server closed.\n"),
         .Cancel, .Return] ∧
      exitStatus (run p env listenErr incoming shutdownErr).main = some 0) := by
  refine ⟨?_, ?_, ?_, ?_, ?_, ?_⟩
  · constructor
    · rintro ⟨msg, hmem⟩
      have hne := (print_running_ne_error (formatInt (resolvePort p env)) msg).symm
      rcases listenErr with _ | _ | m
      · simp [run, serveGoroutine, hne] at hmem
      · simp [run, serveGoroutine, hne] at hmem
      · simp
    · rintro ⟨h1, h2⟩
      rcases listenErr with _ | _ | m
      · exact absurd rfl h1
      · exact absurd rfl h2
      · exact ⟨m, by simp [run, serveGoroutine]⟩
  · intro msg h
    subst h
    simp [run, serveGoroutine, serverAddr]
  · intro h
    rcases h with h | h <;> subst h <;> simp [run, serveGoroutine, serverAddr]
  · intro code
    rcases listenErr with _ | _ | m <;> simp [run, serveGoroutine]
  · intro h
    have hm : (run p env listenErr incoming shutdownErr).main = mainStartup :=
      mainPath_blocked incoming shutdownErr h
    rw [hm]
    exact ⟨rfl, rfl⟩
  · intro sig hsig hin
    subst hin
    have hm : (run p env listenErr (some sig) shutdownErr).main
        = mainStartup ++ .Recv sig :: mainShutdown sig shutdownErr :=
      mainPath_notified sig hsig shutdownErr
    rw [hm]
    cases shutdownErr <;> exact ⟨rfl, rfl⟩

end Docker101
